import Mathlib

/-!
# The CGI web server of `dirigne_hw7.cpp`

A shallow embedding of the request parser, the CGI dispatcher, the response
writer and the statistics renderer of `src/dirigne_hw7.cpp`, followed by the
theorems that settle the claims made about them.

Conventions of the embedding:

* a `std::string` is a list of bytes, a byte being a natural number below 256
  (`Str`); string constants of the source are written `B "..."`;
* `size_t` arithmetic is arithmetic modulo `2 ^ 64` (`szAdd`, `szSub`), and
  `std::string::npos` is `2 ^ 64 - 1`;
* a C++ exception is an `Except.error`;
* the operating system (fork, execvp, waitpid, the `/proc` record) and the
  `float` arithmetic are parameters of the functions that use them.
-/

set_option autoImplicit false

namespace Hw7

/-! ## Strings and `size_t` -/

/-- A `std::string`: a sequence of bytes. -/
abbrev Str := List Nat

/-- The bytes of an ASCII string constant of the source. -/
def B (s : String) : Str := s.toList.map Char.toNat

/-- The exceptions the standard library raises in this program. -/
inductive Err where
  | out_of_range
  | invalid_argument
  deriving DecidableEq, Repr

instance instDecidableEqExcept {ε α : Type} [DecidableEq ε] [DecidableEq α] :
    DecidableEq (Except ε α)
  | .ok a, .ok b =>
    if h : a = b then isTrue (by rw [h]) else isFalse (fun h2 => h (Except.ok.inj h2))
  | .error a, .error b =>
    if h : a = b then isTrue (by rw [h]) else isFalse (fun h2 => h (Except.error.inj h2))
  | .ok _, .error _ => isFalse (fun h => nomatch h)
  | .error _, .ok _ => isFalse (fun h => nomatch h)

/-- The value `std::string::npos`, the largest `size_t`. -/
def npos : Nat := 2 ^ 64 - 1

/-- Addition of two `size_t` values. -/
def szAdd (a b : Nat) : Nat := (a + b) % 2 ^ 64

/-- Subtraction of two `size_t` values: the difference modulo `2 ^ 64`, which
wraps around when the second value is the larger one. -/
def szSub (a b : Nat) : Nat :=
  if b % 2 ^ 64 ≤ a % 2 ^ 64 then a % 2 ^ 64 - b % 2 ^ 64
  else 2 ^ 64 - (b % 2 ^ 64 - a % 2 ^ 64)

/-- The call `s.substr(pos, len)`: throws `std::out_of_range` when
`pos > s.size()`, otherwise the at most `len` bytes from `pos` on. -/
def substr (s : Str) (pos len : Nat) : Except Err Str :=
  if pos > s.length then .error .out_of_range else .ok ((s.drop pos).take len)

/-- The call `s.find(c)` for a single byte `c`. -/
def findChar (s : Str) (c : Nat) : Nat :=
  if c ∈ s then s.indexOf c else npos

/-- The call `s.rfind(c)` for a single byte `c`: the last position of `c`. -/
def rfindChar (s : Str) (c : Nat) : Nat :=
  if c ∈ s then s.length - 1 - s.reverse.indexOf c else npos

/-- Search for `pat` in the suffix `s` of a string, `i` being the position of
the suffix in the whole string. -/
def findAt (pat : Str) : Str → Nat → Nat
  | [], i => if pat = [] then i else npos
  | c :: cs, i => if pat.isPrefixOf (c :: cs) then i else findAt pat cs (i + 1)

/-- The call `s.find(pat, pos)`: the first position at or after `pos` where
`pat` occurs, `npos` when there is none. -/
def find (s pat : Str) (pos : Nat) : Nat :=
  if pos > s.length then npos else findAt pat (s.drop pos) pos

/-! ## The request line parser -/

/-- The constant `RootFile`. -/
def RootFile : Str := B "index.html"

/-- The function `getFilePath` (lines 101-112). -/
def getFilePath (req : Str) : Except Err Str :=
  let spc1 := findChar req 32
  let spc2 := rfindChar req 32
  if spc1 = npos ∨ spc2 = npos then .ok []
  else
    match substr req (szAdd spc1 2) (szSub (szSub spc2 spc1) 2) with
    | .error e => .error e
    | .ok path => if path = [] then .ok RootFile else .ok path

/-! ## Character classes and number parsing -/

/-- The test `isspace` of the C locale: space, `\t`, `\n`, `\v`, `\f`, `\r`. -/
def isspace (c : Nat) : Bool := c = 32 || (9 ≤ c && c ≤ 13)

/-- The test `isdigit`. -/
def isdigit (c : Nat) : Bool := 48 ≤ c && c ≤ 57

/-- The test `isxdigit`: a decimal digit or a letter `a`-`f`, `A`-`F`. -/
def isxdigit (c : Nat) : Bool :=
  (48 ≤ c && c ≤ 57) || (65 ≤ c && c ≤ 70) || (97 ≤ c && c ≤ 102)

/-- The value of a hexadecimal digit. -/
def hexval (c : Nat) : Nat :=
  if 48 ≤ c ∧ c ≤ 57 then c - 48
  else if 65 ≤ c ∧ c ≤ 70 then c - 55
  else c - 87

/-- An optional sign in front of a number, as `strtol` and `strtoul` read it:
whether the number is negated, and the text after the sign. -/
def readSign : Str → Bool × Str
  | 45 :: t => (true, t)
  | 43 :: t => (false, t)
  | s => (false, s)

/-- The optional `0x` or `0X` in front of a hexadecimal number: it is skipped
only when a hexadecimal digit follows it. -/
def skip0x : Str → Str
  | 48 :: x :: h :: t => if (x = 120 ∨ x = 88) ∧ isxdigit h = true then h :: t else 48 :: x :: h :: t
  | s => s

/-- The call `std::stoi(s, nullptr, 16)`: leading white space, an optional
sign, an optional `0x`, then the longest run of hexadecimal digits;
`std::invalid_argument` when there is no digit, `std::out_of_range` when the
value is no `int`. -/
def stoi16 (s : Str) : Except Err Int :=
  let (neg, body) := readSign (s.dropWhile isspace)
  let ds := (skip0x body).takeWhile isxdigit
  if ds = [] then .error .invalid_argument
  else
    let v : Int := ((ds.foldl (fun a d => 16 * a + hexval d) 0 : Nat) : Int)
    let r : Int := if neg then -v else v
    if r < -(2 ^ 31) ∨ 2 ^ 31 - 1 < r then .error .out_of_range else .ok r

/-- The conversion of an `int` to `char`: the low eight bits. -/
def toChar (v : Int) : Nat := (v % 256).toNat

/-! ## URL decoding -/

/-- The function `url_decode` (lines 469-485). The loop visits the string
from left to right: the bytes in front of the next `%` or `+` are kept, a `+`
becomes a space, and a `%` together with the at most two bytes after it is
replaced by the byte whose hexadecimal value `std::stoi` reads from those
bytes; the scan resumes right after the replaced byte. -/
def url_decode : Str → Except Err Str
  | [] => .ok []
  | 43 :: rest =>
    match url_decode rest with
    | .error e => .error e
    | .ok r => .ok (32 :: r)
  | [37] =>
    match stoi16 [] with
    | .error e => .error e
    | .ok v => .ok [toChar v]
  | [37, a] =>
    match stoi16 [a] with
    | .error e => .error e
    | .ok v => .ok [toChar v]
  | 37 :: a :: b :: rest =>
    match stoi16 [a, b] with
    | .error e => .error e
    | .ok v =>
      match url_decode rest with
      | .error e => .error e
      | .ok r => .ok (toChar v :: r)
  | c :: rest =>
    match url_decode rest with
    | .error e => .error e
    | .ok r => .ok (c :: r)

/-! ## Splitting into words -/

/-- The loop `while (is >> word)` of `split`, as a scan of the remaining
input with the word read so far in `cur`: white space ends a word, and empty
words are not produced. -/
def splitAux : Str → Str → List Str
  | [], cur => if cur = [] then [] else [cur]
  | c :: cs, cur =>
    if isspace c = true then
      if cur = [] then splitAux cs [] else cur :: splitAux cs []
    else splitAux cs (cur ++ [c])

/-- The function `split` (lines 172-180). -/
def split (str : Str) : List Str := splitAux str []

/-! ## The CGI dispatcher -/

/-- The constant `cgiPrefix` of `serveClient`. -/
def cgiPrefix : Str := B "cgi-bin/exec?cmd="

/-- The constant `prefixLen` of `serveClient`. -/
def prefixLen : Nat := cgiPrefix.length

/-- The marker `"&args="` searched for by `serveClient`. -/
def argsMarker : Str := B "&args="

/-- The dispatch of `serveClient` (lines 429-437): `none` when the path does
not start with the CGI prefix, otherwise the two strings `cmd` and `args`
that are handed to `exec`. -/
def dispatch (path : Str) : Except Err (Option (Str × Str)) :=
  match substr path 0 prefixLen with
  | .error e => .error e
  | .ok start =>
    if start = cgiPrefix then
      let argsPos := find path argsMarker prefixLen
      match substr path prefixLen (szSub argsPos prefixLen) with
      | .error e => .error e
      | .ok cmd =>
        match substr path (szAdd argsPos 6) npos with
        | .error e => .error e
        | .ok rest =>
          match url_decode rest with
          | .error e => .error e
          | .ok args => .ok (some (cmd, args))
    else .ok none

/-- The argument vector that `exec` builds (lines 384-386): the words of
`args` with the command put in front. -/
def cmdArgs (cmd args : Str) : List Str := cmd :: split args

/-! ## Number formatting -/

/-- The character of a digit below 16, lower case as `std::hex` writes it. -/
def digitChar (d : Nat) : Nat := if d < 10 then 48 + d else 87 + d

/-- The digits of `n` in base `b` put in front of `acc`, most significant
first; `fuel` bounds the number of digits. -/
def digitsAux (b : Nat) : Nat → Nat → Str → Str
  | 0, _, acc => acc
  | fuel + 1, n, acc =>
    if n / b = 0 then digitChar (n % b) :: acc
    else digitsAux b fuel (n / b) (digitChar (n % b) :: acc)

/-- The text that `os << std::hex << n` writes for a `size_t`. -/
def toHex (n : Nat) : Str := digitsAux 16 (n + 1) n []

/-- The text `std::to_string(v)` of an integer. -/
def to_string (v : Int) : Str :=
  if v < 0 then 45 :: digitsAux 10 (v.natAbs + 1) v.natAbs []
  else digitsAux 10 (v.natAbs + 1) v.natAbs []

/-! ## The chunked response writer -/

/-- The function `html1` (lines 253-260): the preamble chunk, size line and
closing line break included. -/
def html1 : Str :=
  B ("156\r\n<html>\r\n  <head>\r\n    <script type='text/javascript' "
    ++ "src='https://www.gstatic.com/charts/loader.js'></script>\r\n    "
    ++ "<script type='text/javascript' src='/draw_chart.js'></script>\r\n"
    ++ "    <link rel='stylesheet' type='text/css' href='/mystyle.css'>"
    ++ "\r\n  </head>\r\n\r\n  <body>\r\n    <h3>Output from program</h3>\r\n"
    ++ "    <textarea style='width: 700px; height: 200px'>\r\n\r\n")

/-- The loop `while (std::getline(is, line))` over the bytes the child wrote:
the lines without their `\n`; a last line without `\n` counts when it is not
empty. `cur` is the line read so far. -/
def getlinesAux : Str → Str → List Str
  | [], cur => if cur = [] then [] else [cur]
  | c :: cs, cur => if c = 10 then cur :: getlinesAux cs [] else getlinesAux cs (cur ++ [c])

/-- The lines that `sendData` reads from the child. -/
def getlines (is : Str) : List Str := getlinesAux is []

/-- What `sendData` writes for one line of the child (lines 229-234). -/
def lineChunk (line0 : Str) : Str :=
  let line := line0 ++ B "\n"
  toHex line.length ++ B "\r\n" ++ line ++ B "\r\n"

/-- The child in the process table, as `waitpid` sees it once the child has
terminated: its wait status is still to be collected, or it has been. -/
inductive ChildState where
  | unreaped (status : Int)
  | reaped
  deriving DecidableEq, Repr

/-- What a `waitpid(pid, &exitCode, ...)` call leaves behind. -/
structure WaitResult where
  ret : Int
  exitCode : Int
  state : ChildState
  deriving DecidableEq, Repr

/-- A call `waitpid(pid, &exitCode, options)` that does not find the child
still running (POSIX): the wait status of a terminated child is delivered to
exactly one call, which returns `pid`; every later call on that pid returns
`-1` and leaves `exitCode` as it was. -/
def waitpid (pid : Int) (exitCode : Int) : ChildState → WaitResult
  | .unreaped status => { ret := pid, exitCode := status, state := .reaped }
  | .reaped => { ret := -1, exitCode := exitCode, state := .reaped }

/-- The line with the exit code (line 245). -/
def exitLine (exitCode : Int) : Str :=
  B "\r\nExit code: " ++ to_string exitCode ++ B "\r\n"

/-- What `sendData` writes for the exit code (lines 241-246), given the value
of `exitCode` after its `waitpid` call. -/
def exitChunk (exitCode : Int) : Str :=
  let line := exitLine exitCode
  toHex line.length ++ B "\r\n" ++ line ++ B "\r\n"

/-- The status line and headers that `sendData` writes first (lines 222-223). -/
def header200 (mimeType : Str) : Str :=
  B "HTTP/1.1 200 OK\r\n" ++ B "Content-Type: " ++ mimeType ++ B "\r\n"
    ++ B "Transfer-Encoding: chunked\r\n" ++ B "Connection: Close\r\n\r\n"

/-- The function `sendData` (lines 219-250): the bytes written to `os`. `is`
holds the bytes the child wrote to the pipe, `html2` the block the joined
thread has built, `st` the child in the process table after that thread has
ended. -/
def sendData (mimeType : Str) (pid : Int) (is : Str) (html2 : Str) (st : ChildState) : Str :=
  header200 mimeType ++ html1
    ++ ((getlines is).map lineChunk).flatten
    ++ (if pid ≠ -1 then exitChunk (waitpid pid 0 st).exitCode else [])
    ++ html2 ++ B "0\r\n"

/-- The function `send404` (lines 125-138): the bytes written to `os`. -/
def send404 (path : Str) : Str :=
  let msg := B "The following file was not found: " ++ path
  B "HTTP/1.1 404 Not Found\r\n" ++ B "Content-Type: text/plain\r\n"
    ++ B "Transfer-Encoding: chunked\r\n" ++ B "Connection: Close\r\n\r\n"
    ++ toHex msg.length ++ B "\r\n"
    ++ msg ++ B "\r\n"
    ++ B "0\r\n\r\n"

/-! ## The statistics renderer -/

/-- What `strFl` observes of its `float` argument: whether it compares equal
to zero, and its text `std::to_string(fl)`. -/
structure FloatObs where
  isZero : Bool
  text : Str
  deriving DecidableEq, Repr

/-- The function `strFl` (lines 329-337). -/
def strFl (fl : FloatObs) : Except Err Str :=
  if fl.isZero = true then .ok (B "0")
  else
    let orig := fl.text
    match substr orig 0 (szAdd (find orig (B ".") 0) 3) with
    | .error e => .error e
    | .ok form =>
      match substr form (szSub form.length 1) npos with
      | .error e => .error e
      | .ok last =>
        if last = B "0" then substr form 0 (szSub form.length 1) else .ok form

/-- The three numbers `getStats` has after reading `/proc/<pid>/stat` in one
round of its loop. -/
structure Poll where
  userTime : FloatObs
  systemTime : FloatObs
  memory : Int
  deriving DecidableEq, Repr

/-- The table row that one round of `getStats` appends (lines 359-361). -/
def statRow (time : Int) (u s : Str) (memory : Int) : Str :=
  B "\r\n       <tr><td>" ++ to_string time ++ B "</td><td>" ++ u ++ B "</td><td>" ++ s
    ++ B "</td><td>" ++ to_string memory ++ B "</td></tr>"

/-- The sample that one round of `getStats` appends to `values` (lines 362-363). -/
def statValue (time : Int) (u s : Str) (memory : Int) : Str :=
  to_string time ++ B " " ++ u ++ B " " ++ s ++ B " " ++ to_string memory

/-- The value that an `int` holds after an arithmetic step with the exact
result `v`: the low 32 bits in two's complement. The overflow of an `int` is
undefined in C++; the wrap-around stands for it, and the theorems on counters
are stated for the runs in which none occurs. -/
def wrapInt (v : Int) : Int := (v + 2 ^ 31) % 2 ^ 32 - 2 ^ 31

/-- The loop of `getStats` (lines 346-365). The list holds one entry for each
round, that is for each `waitpid(pid, &exitCode, WNOHANG)` that returned 0,
with what was read from `/proc` in that round; the loop ends at the first
call that does not return 0. `time` is the `int` counter of the rounds. -/
def getStatsLoop : List Poll → Str → List Str → Int → Except Err (Str × List Str)
  | [], stats, values, _ => .ok (stats, values)
  | p :: ps, stats, values, time =>
    match strFl p.userTime with
    | .error e => .error e
    | .ok u =>
      match strFl p.systemTime with
      | .error e => .error e
      | .ok s =>
        getStatsLoop ps (stats ++ statRow time u s p.memory)
          (values ++ [statValue time u s p.memory]) (wrapInt (time + 1))

/-- The function `getStats` (lines 344-367): the table rows, the samples, and
the child in the process table after the `waitpid` call that ended the loop. -/
def getStats (pid : Int) (polls : List Poll) (st : ChildState) :
    Except Err (Str × List Str × ChildState) :=
  match getStatsLoop polls [] [] 1 with
  | .error e => .error e
  | .ok (stats, values) => .ok (stats, values, (waitpid pid 0 st).state)

/-- The function `newLineCount` (lines 268-274): the number of `\r` bytes. -/
def newLineCount (html2 : Str) : Nat := html2.count 13

/-- The call `std::stoul(s)`: leading white space, an optional sign, then the
longest run of decimal digits. -/
def stoul (s : Str) : Except Err Nat :=
  let (neg, body) := readSign (s.dropWhile isspace)
  let ds := body.takeWhile isdigit
  if ds = [] then .error .invalid_argument
  else
    let v : Nat := ds.foldl (fun a d => 10 * a + (d - 48)) 0
    if 2 ^ 64 - 1 < v then .error .out_of_range
    else .ok (if neg then szSub 0 v else v)

/-- The loop of `json` (lines 283-292). `fadd utime stime` stands for the
`float` value `stof(utime) + stof(stime)` as `strFl` observes it, or for the
exception `stof` throws; `size` is `values.size()`. -/
def jsonLoop (fadd : Str → Str → Except Err FloatObs) (size : Nat) :
    List Str → Str → Except Err Str
  | [], out => .ok out
  | line :: rest, out =>
    let ws := split line
    let time := ws.getD 0 []
    let utime := ws.getD 1 []
    let stime := ws.getD 2 []
    let memory := ws.getD 3 []
    match fadd utime stime with
    | .error e => .error e
    | .ok sum =>
      match strFl sum with
      | .error e => .error e
      | .ok cpu =>
        let out1 := out ++ (B "          [" ++ time ++ B ", " ++ cpu ++ B ", " ++ memory ++ B "]")
        match stoul time with
        | .error e => .error e
        | .ok t => jsonLoop fadd size rest (if t ≠ size % 2 ^ 64 then out1 ++ B ",\n" else out1)

/-- The function `json` (lines 281-294). -/
def json (fadd : Str → Str → Except Err FloatObs) (values : List Str) : Except Err Str :=
  match jsonLoop fadd values.length values (B ",\r\n") with
  | .error e => .error e
  | .ok out => .ok (out ++ B "\n")

/-- The constant `first` of `html2`. -/
def html2First : Str :=
  B ("     </textarea>\r\n     <h2>Runtime statistics</h2>"
    ++ "\r\n     <table>\r\n"
    ++ "       <tr><th>Time (sec)</th><th>User time</th>"
    ++ "<th>System time</th><th>Memory (KB)</th></tr>")

/-- The constant `middle` of `html2`. -/
def html2Middle : Str :=
  B ("\r\n     </table>\r\n     <div id='chart' style='wi"
    ++ "dth: 900px; height: 500px'></div>\r\n  </body>\r\n  <script type="
    ++ "'text/javascript'>\r\n    function getChartData() \x7b\r\n      "
    ++ "return google.visualization.arrayToDataTable(\r\n        [\r\n"
    ++ "          ['Time (sec)', 'CPU Usage', 'Memory Usage']")

/-- The constant `last` of `html2`. -/
def html2Last : Str :=
  B ("        ]\r\n      );\r\n    \x7d\r\n  </script>\r\n"
    ++ "</html>\r\n")

/-- The local string `html2` of the function `html2` (lines 313-314). -/
def html2Body (statistics jsonStr : Str) : Str :=
  html2First ++ statistics ++ html2Middle ++ jsonStr ++ html2Last

/-- The size that `html2` writes in front of its block (line 318), in
`size_t` arithmetic. -/
def html2Size (statistics jsonStr : Str) : Nat :=
  szSub (szSub (html2Body statistics jsonStr).length 17) (newLineCount statistics)

/-- The string stored in `html2Str` (line 320). -/
def html2Block (statistics jsonStr : Str) : Str :=
  toHex (html2Size statistics jsonStr) ++ B "\r\n" ++ html2Body statistics jsonStr ++ B "\r\n"

/-- The function `html2` (lines 296-321), run by the sampler thread: the
string stored in `html2Str`, and the child in the process table afterwards. -/
def html2 (fadd : Str → Str → Except Err FloatObs) (pid : Int) (polls : List Poll)
    (st : ChildState) (genChart : Bool) : Except Err (Str × ChildState) :=
  match getStats pid polls st with
  | .error e => .error e
  | .ok (statistics, values, st1) =>
    match (if genChart = false then .ok (B "\r\n") else json fadd values) with
    | .error e => .error e
    | .ok jsonStr => .ok (html2Block statistics jsonStr, st1)

/-! ## The process launcher and the connection handler -/

/-- How a child process ends: the bytes it wrote to its standard output and
its wait status. -/
structure ChildExit where
  stdout : Str
  status : Int
  deriving DecidableEq, Repr

/-- The wait status of a process that ends by `exit(code)`. -/
def exitStatus (code : Nat) : Int := ((code % 256 * 256 : Nat) : Int)

/-- The function `runChild` (lines 191-206). `execvp argList` is how the
process ends when `execvp` replaces its image by the command, and `none` when
`execvp` returns. The result is `none` for an empty `argList`, which the
function reads at index 0. -/
def runChild (execvp : List Str → Option ChildExit) (argList : List Str) : Option ChildExit :=
  match execvp argList with
  | some run => some run
  | none =>
    match argList with
    | [] => none
    | arg0 :: _ =>
      some { stdout := B "Command " ++ arg0 ++ B " not found!\n", status := exitStatus 0 }

/-- What `exec` gets from the operating system and from `float` arithmetic:
the pid that `fork` returns to the parent, the behaviour of `execvp`, the
rounds of the sampler loop, and the sum `stof(utime) + stof(stime)`. -/
structure World where
  pid : Int
  execvp : List Str → Option ChildExit
  polls : List Poll
  fadd : Str → Str → Except Err FloatObs

/-- The function `exec` (lines 382-409): the bytes written to `os`. The child
runs `runChild`; the parent starts the thread of `html2`, and `sendData`
joins it after the child's output has been read. -/
def exec (w : World) (cmd args : Str) (genChart : Bool) : Except Err Str :=
  match runChild w.execvp (cmdArgs cmd args) with
  | none => .ok []
  | some child =>
    match html2 w.fadd w.pid w.polls (.unreaped child.status) genChart with
    | .error e => .error e
    | .ok (html2Str, st) => .ok (sendData (B "text/html") w.pid child.stdout html2Str st)

/-- The function `serveClient` (lines 419-450) on the request line `line`:
the bytes written to `os`. The header lines after the request line are read
and ignored. -/
def serveClient (w : World) (line : Str) (genChart : Bool) : Except Err Str :=
  match getFilePath line with
  | .error e => .error e
  | .ok path =>
    match dispatch path with
    | .error e => .error e
    | .ok (some (cmd, args)) => exec w cmd args genChart
    | .ok none => .ok []

/-! ## The encoding of a CGI query, as the specification words it -/

/-- The test `isalnum`: a decimal digit or an ASCII letter. -/
def isalnum (c : Nat) : Bool :=
  (48 ≤ c && c ≤ 57) || (65 ≤ c && c ≤ 90) || (97 ≤ c && c ≤ 122)

/-- The upper-case character of a hexadecimal digit. -/
def hexUpper (d : Nat) : Nat := if d < 10 then 48 + d else 55 + d

/-- A byte of an argument in the query string: itself when alphanumeric,
otherwise `%XX` with its two hexadecimal digits. -/
def encodeByte (b : Nat) : Str :=
  if isalnum b = true then [b] else [37, hexUpper (b / 16), hexUpper (b % 16)]

/-- A word of the argument list in the query string. -/
def encodeWord (w : Str) : Str := (w.map encodeByte).flatten

/-- The strings of a list joined by a separator. -/
def joinWith (sep : Str) : List Str → Str
  | [] => []
  | [w] => w
  | w :: v :: ws => w ++ sep ++ joinWith sep (v :: ws)

/-- The argument list in the query string: the encoded words joined by `+`. -/
def encodeArgs (ws : List Str) : Str := joinWith (B "+") (ws.map encodeWord)

/-- A byte put in front of the result of a decoding, an error passed on. -/
def consE (b : Nat) : Except Err Str → Except Err Str
  | .ok r => .ok (b :: r)
  | .error e => .error e

/-- Bytes put in front of the result of a decoding. -/
def appendE (w : Str) : Except Err Str → Except Err Str
  | .ok r => .ok (w ++ r)
  | .error e => .error e

/-! ## The framing of a chunk, as the specification words it -/

/-- The number that a run of hexadecimal digits stands for. -/
def parseHex (ds : Str) : Nat := ds.foldl (fun a d => 16 * a + hexval d) 0

/-- A reader of one chunk `<hex-length>\r\n<bytes>\r\n`: the payload, which
has as many bytes as the size line says, and what follows the chunk; `none`
when the bytes after the payload are not `\r\n`. -/
def readChunk (s : Str) : Option (Str × Str) :=
  let ds := s.takeWhile isxdigit
  if ds = [] then none
  else
    match s.dropWhile isxdigit with
    | 13 :: 10 :: body =>
      let n := parseHex ds
      if (body.drop n).take 2 = [13, 10] then some (body.take n, body.drop (n + 2)) else none
    | _ => none

/-- A reader of `k` chunks in a row: their payloads and what follows them. -/
def readChunks : Nat → Str → Option (List Str × Str)
  | 0, s => some ([], s)
  | k + 1, s =>
    match readChunk s with
    | none => none
    | some (p, rest) =>
      match readChunks k rest with
      | none => none
      | some (ps, r) => some (p :: ps, r)

/-- The payload of the preamble chunk: the bytes of `html1` between the line
break that ends its size line `156` and the line break that closes it. -/
def html1Payload : Str := (html1.drop 5).take (html1.length - 7)

/-! ## A concrete world for evaluating the server -/

/-- A world in which the command `false` can be executed: it writes nothing
and ends by `exit(1)`, and the sampler never finds it running. No other
command can be executed. -/
def worldFalse : World where
  pid := 1234
  execvp := fun argv => if argv = [B "false"] then some { stdout := [], status := exitStatus 1 } else none
  polls := []
  fadd := fun _ _ => .error .invalid_argument

/-- The response of `exec` in the world `worldFalse` for the command `false`
without arguments, without chart. -/
def responseFalse : Str :=
  header200 (B "text/html") ++ html1 ++ exitChunk 0 ++ html2Block [] (B "\r\n") ++ B "0\r\n"

/-- A `float` sum for evaluating `json`: the texts `0.01` and `0` add up to a
value with the text `0.010000`, the texts `1.23` and `0.12` to one with the
text `1.350000`, and `stof` throws on every other pair. -/
def faddDemo (utime stime : Str) : Except Err FloatObs :=
  if utime = B "0.01" ∧ stime = B "0" then .ok { isZero := false, text := B "0.010000" }
  else if utime = B "1.23" ∧ stime = B "0.12" then .ok { isZero := false, text := B "1.350000" }
  else .error .invalid_argument

/-! ## Samples and chart data, as the specification words them -/

/-- A text that `std::to_string` can return for a `float`: not empty, and far
shorter than `2 ^ 64` bytes. -/
def okText (fl : FloatObs) : Prop := fl.text ≠ [] ∧ fl.text.length + 3 < 2 ^ 64

/-- A sample as the sampler formats it: the text of the user time, of the
system time and of the memory. -/
structure Cell where
  utime : Str
  stime : Str
  memory : Int
  deriving DecidableEq, Repr

/-- The table rows for the cells, the first with the elapsed-seconds value
`k`, the next with `k + 1`, and so on. -/
def rowsFrom (k : Int) : List Cell → List Str
  | [] => []
  | c :: cs => statRow k c.utime c.stime c.memory :: rowsFrom (k + 1) cs

/-- The entries of the sample list for the cells, the first with the
elapsed-seconds value `k`, the next with `k + 1`, and so on. -/
def entriesFrom (k : Int) : List Cell → List Str
  | [] => []
  | c :: cs => statValue k c.utime c.stime c.memory :: entriesFrom (k + 1) cs

/-- A word of a line: not empty and without white space. -/
def isWord (w : Str) : Prop := w ≠ [] ∧ ∀ b ∈ w, isspace b = false

/-- A sample of the chart: the words of the user time, the system time and
the memory as they stand in the sample list, and the text of the CPU time
that the chart shows for them. -/
structure Sample where
  utime : Str
  stime : Str
  memory : Str
  cpu : Str
  deriving DecidableEq, Repr

/-- The entry `k u s m` of the sample list for the elapsed-seconds value `k`. -/
def sampleLine (k : Nat) (x : Sample) : Str :=
  to_string k ++ B " " ++ x.utime ++ B " " ++ x.stime ++ B " " ++ x.memory

/-- The sample list whose elapsed-seconds values are `k`, `k + 1`, and so on. -/
def samplesFrom (k : Nat) : List Sample → List Str
  | [] => []
  | x :: xs => sampleLine k x :: samplesFrom (k + 1) xs

/-- The triple `[k, c, m]` of the chart data, behind ten spaces. -/
def tripleLine (k : Nat) (x : Sample) : Str :=
  B "          [" ++ to_string k ++ B ", " ++ x.cpu ++ B ", " ++ x.memory ++ B "]"

/-- The triples for the elapsed-seconds values `k`, `k + 1`, and so on. -/
def triplesFrom (k : Nat) : List Sample → List Str
  | [] => []
  | x :: xs => tripleLine k x :: triplesFrom (k + 1) xs

/-! ## Lemmas on `size_t` arithmetic -/

theorem szSub_eq_mod (a b : Nat) :
    szSub a b = (a % 2 ^ 64 + 2 ^ 64 - b % 2 ^ 64) % 2 ^ 64 := by
  unfold szSub
  have ha : a % 2 ^ 64 < 2 ^ 64 := Nat.mod_lt _ (by norm_num)
  have hb : b % 2 ^ 64 < 2 ^ 64 := Nat.mod_lt _ (by norm_num)
  split <;> omega

theorem szSub_of_le (a b : Nat) (ha : a < 2 ^ 64) (hb : b ≤ a) : szSub a b = a - b := by
  unfold szSub
  have : b % 2 ^ 64 = b := Nat.mod_eq_of_lt (by omega)
  rw [Nat.mod_eq_of_lt ha, this, if_pos hb]

theorem szAdd_of_lt (a b : Nat) (h : a + b < 2 ^ 64) : szAdd a b = a + b := by
  unfold szAdd
  exact Nat.mod_eq_of_lt h

/-! ## C1: the round trip of the CGI dispatch -/

theorem url_decode_plain (c : Nat) (rest : Str) (h1 : c ≠ 37) (h2 : c ≠ 43) :
    url_decode (c :: rest) = consE c (url_decode rest) := by
  rw [url_decode]
  · cases url_decode rest <;> rfl
  all_goals simp_all

theorem url_decode_plus (rest : Str) :
    url_decode (43 :: rest) = consE 32 (url_decode rest) := by
  rw [url_decode]
  cases url_decode rest <;> rfl

set_option maxRecDepth 100000 in
theorem stoi16_hexUpper :
    ∀ b < 256, stoi16 [hexUpper (b / 16), hexUpper (b % 16)] = .ok (b : Int) := by
  decide

theorem toChar_byte (b : Nat) (h : b < 256) : toChar (b : Int) = b := by
  unfold toChar
  omega

theorem url_decode_percent (b : Nat) (h : b < 256) (rest : Str) :
    url_decode (37 :: hexUpper (b / 16) :: hexUpper (b % 16) :: rest)
      = consE b (url_decode rest) := by
  rw [url_decode, stoi16_hexUpper b h]
  simp only [toChar_byte b h]
  cases url_decode rest <;> rfl

theorem url_decode_encodeByte (b : Nat) (h : b < 256) (rest : Str) :
    url_decode (encodeByte b ++ rest) = consE b (url_decode rest) := by
  unfold encodeByte
  split
  · rename_i ha
    have h1 : b ≠ 37 := by
      rintro rfl
      simp [isalnum] at ha
    have h2 : b ≠ 43 := by
      rintro rfl
      simp [isalnum] at ha
    simpa using url_decode_plain b rest h1 h2
  · simpa using url_decode_percent b h rest

theorem url_decode_encodeWord (w : Str) (h : ∀ b ∈ w, b < 256) (rest : Str) :
    url_decode (encodeWord w ++ rest) = appendE w (url_decode rest) := by
  induction w with
  | nil => cases h2 : url_decode rest <;> simp [encodeWord, appendE, h2]
  | cons b w ih =>
    have hb : b < 256 := h b (by simp)
    have hw : ∀ x ∈ w, x < 256 := fun x hx => h x (by simp [hx])
    have e : encodeWord (b :: w) ++ rest = encodeByte b ++ (encodeWord w ++ rest) := by
      simp [encodeWord]
    rw [e, url_decode_encodeByte b hb, ih hw]
    cases url_decode rest <;> rfl

theorem url_decode_encodeArgs (ws : List Str) (h : ∀ w ∈ ws, ∀ b ∈ w, b < 256) :
    url_decode (encodeArgs ws) = .ok (joinWith (B " ") ws) := by
  induction ws with
  | nil => rfl
  | cons w ws ih =>
    have hw : ∀ b ∈ w, b < 256 := h w (by simp)
    have hws : ∀ v ∈ ws, ∀ b ∈ v, b < 256 := fun v hv => h v (by simp [hv])
    cases ws with
    | nil =>
      have := url_decode_encodeWord w hw []
      simpa [encodeArgs, joinWith, appendE, url_decode] using this
    | cons v vs =>
      have e : encodeArgs (w :: v :: vs) = encodeWord w ++ (43 :: encodeArgs (v :: vs)) := by
        simp [encodeArgs, joinWith, B]
      rw [e, url_decode_encodeWord w hw, url_decode_plus, ih hws]
      simp [consE, appendE, joinWith, B]

theorem splitAux_word (w rest cur : Str) (h : ∀ b ∈ w, isspace b = false) :
    splitAux (w ++ rest) cur = splitAux rest (cur ++ w) := by
  induction w generalizing cur with
  | nil => simp
  | cons b w ih =>
    have hb : isspace b = false := h b (by simp)
    have hw : ∀ x ∈ w, isspace x = false := fun x hx => h x (by simp [hx])
    rw [List.cons_append, splitAux]
    simp only [hb, Bool.false_eq_true, if_false]
    rw [ih _ hw]
    simp

theorem split_joinWith (ws : List Str) (hne : ∀ w ∈ ws, w ≠ [])
    (hsp : ∀ w ∈ ws, ∀ b ∈ w, isspace b = false) :
    split (joinWith (B " ") ws) = ws := by
  unfold split
  induction ws with
  | nil => rfl
  | cons w ws ih =>
    have hw : ∀ b ∈ w, isspace b = false := hsp w (by simp)
    have hwne : w ≠ [] := hne w (by simp)
    have hne2 : ∀ v ∈ ws, v ≠ [] := fun v hv => hne v (by simp [hv])
    have hsp2 : ∀ v ∈ ws, ∀ b ∈ v, isspace b = false := fun v hv => hsp v (by simp [hv])
    cases ws with
    | nil =>
      have := splitAux_word w [] [] hw
      simp only [List.append_nil, List.nil_append] at this
      simp [joinWith, this, splitAux, hwne]
    | cons v vs =>
      have e : joinWith (B " ") (w :: v :: vs) = w ++ (32 :: joinWith (B " ") (v :: vs)) := by
        simp [joinWith, B]
      rw [e, splitAux_word _ _ _ hw]
      have hs : isspace 32 = true := by decide
      simp only [List.nil_append, splitAux, hs, hwne, if_true, if_false]
      rw [ih hne2 hsp2]

theorem marker_not_prefix (c E : Str) (hc : ¬ argsMarker <:+: c) (hne : c ≠ []) :
    argsMarker.isPrefixOf (c ++ argsMarker ++ E) = false := by
  by_contra hcon
  have hp : argsMarker <+: c ++ argsMarker ++ E := by
    simpa using hcon
  by_cases hl : argsMarker.length ≤ c.length
  · have h1 : c <+: c ++ argsMarker ++ E := by
      simp [List.append_assoc]
    have h2 : argsMarker <+: c := List.prefix_of_prefix_length_le hp h1 hl
    exact hc h2.isInfix
  · have hl6 : c.length < 6 := by
      have : argsMarker.length = 6 := by decide
      omega
    rcases c with _ | ⟨a, _ | ⟨b, _ | ⟨d, _ | ⟨e, _ | ⟨f, _ | ⟨g, t⟩⟩⟩⟩⟩⟩
    · exact hne rfl
    all_goals simp [argsMarker, B] at hcon hl6
    · omega

theorem findAt_marker (c E : Str) (i : Nat) (hc : ¬ argsMarker <:+: c) :
    findAt argsMarker (c ++ argsMarker ++ E) i = i + c.length := by
  induction c generalizing i with
  | nil => simp [findAt, argsMarker, B]
  | cons x c ih =>
    have hc2 : ¬ argsMarker <:+: c := fun h => hc (h.trans (List.suffix_cons x c).isInfix)
    have hp := marker_not_prefix (x :: c) E hc (by simp)
    simp only [List.cons_append] at hp
    rw [List.cons_append, List.cons_append, findAt]
    simp only [hp, Bool.false_eq_true, if_false]
    rw [ih _ hc2]
    simp only [List.length_cons]
    omega

/-- C1. Round trip of the CGI dispatch: for a command `c` that does not
contain `&args=` and a list `ws` of non-empty words of bytes without white
space, the path `cgi-bin/exec?cmd=` ++ `c` ++ `&args=` ++ (the words
percent-encoded and joined by `+`) is dispatched to `exec` with command `c`
and the words joined by spaces, and `exec` builds the argument vector
`c :: ws` from them. -/
theorem dispatch_roundtrip (c : Str) (ws : List Str)
    (hc : ¬ argsMarker <:+: c)
    (hbytes : ∀ w ∈ ws, ∀ b ∈ w, b < 256)
    (hne : ∀ w ∈ ws, w ≠ [])
    (hsp : ∀ w ∈ ws, ∀ b ∈ w, isspace b = false)
    (hlen : (cgiPrefix ++ c ++ argsMarker ++ encodeArgs ws).length < 2 ^ 64) :
    dispatch (cgiPrefix ++ c ++ argsMarker ++ encodeArgs ws)
        = .ok (some (c, joinWith (B " ") ws))
      ∧ cmdArgs c (joinWith (B " ") ws) = c :: ws := by
  refine ⟨?_, ?_⟩
  · have hpl : prefixLen = 17 := by decide
    have hcl : cgiPrefix.length = 17 := by decide
    have hml : argsMarker.length = 6 := by decide
    simp only [List.length_append, hcl, hml] at hlen
    have e1 : substr (cgiPrefix ++ c ++ argsMarker ++ encodeArgs ws) 0 prefixLen
        = .ok cgiPrefix := by
      simp [substr, prefixLen, List.append_assoc]
    have e2 : find (cgiPrefix ++ c ++ argsMarker ++ encodeArgs ws) argsMarker prefixLen
        = 17 + c.length := by
      unfold find
      have hd : List.drop prefixLen (cgiPrefix ++ c ++ argsMarker ++ encodeArgs ws)
          = c ++ argsMarker ++ encodeArgs ws := by
        rw [hpl, ← hcl]
        simp [List.append_assoc]
      rw [hd, findAt_marker c _ _ hc, hpl]
      simp [hcl, hml]
    have e3 : substr (cgiPrefix ++ c ++ argsMarker ++ encodeArgs ws) prefixLen
        (szSub (17 + c.length) prefixLen) = .ok c := by
      rw [hpl, szSub_of_le _ _ (by omega) (by omega)]
      unfold substr
      have hd : List.drop 17 (cgiPrefix ++ c ++ argsMarker ++ encodeArgs ws)
          = c ++ (argsMarker ++ encodeArgs ws) := by
        rw [← hcl]
        simp [List.append_assoc]
      rw [hd]
      simp [hcl, hml]
    have e4 : substr (cgiPrefix ++ c ++ argsMarker ++ encodeArgs ws)
        (szAdd (17 + c.length) 6) npos = .ok (encodeArgs ws) := by
      rw [szAdd_of_lt _ _ (by omega)]
      unfold substr
      have hd : List.drop (17 + c.length + 6) (cgiPrefix ++ c ++ argsMarker ++ encodeArgs ws)
          = encodeArgs ws := by
        have : 17 + c.length + 6 = (cgiPrefix ++ c ++ argsMarker).length := by
          simp only [List.length_append, hcl, hml]
        rw [this, List.drop_left]
      rw [hd]
      have hn : (encodeArgs ws).length ≤ npos := by
        unfold npos
        omega
      rw [List.take_of_length_le hn]
      simp only [List.length_append, hcl, hml]
      rw [if_neg (by omega)]
    unfold dispatch
    rw [e1]
    simp only [if_true]
    rw [e2, e3]
    simp only []
    rw [e4]
    simp only []
    rw [url_decode_encodeArgs ws hbytes]
  · unfold cmdArgs
    rw [split_joinWith ws hne hsp]

/-- The path `cgi-bin/exec?cmd=echo&args=hello%2C+world%21` is the encoding of
the command `echo` with the words `hello,` and `world!`, and it is dispatched
to the argument vector `[echo, hello,, world!]`. -/
theorem dispatch_roundtrip_witness :
    cgiPrefix ++ B "echo" ++ argsMarker ++ encodeArgs [B "hello,", B "world!"]
        = B "cgi-bin/exec?cmd=echo&args=hello%2C+world%21"
      ∧ dispatch (B "cgi-bin/exec?cmd=echo&args=hello%2C+world%21")
        = .ok (some (B "echo", B "hello, world!"))
      ∧ cmdArgs (B "echo") (B "hello, world!") = [B "echo", B "hello,", B "world!"] := by
  have h := dispatch_roundtrip (B "echo") [B "hello,", B "world!"]
    (by decide) (by decide) (by decide) (by decide) (by decide)
  have e : cgiPrefix ++ B "echo" ++ argsMarker ++ encodeArgs [B "hello,", B "world!"]
      = B "cgi-bin/exec?cmd=echo&args=hello%2C+world%21" := by decide
  have j : joinWith (B " ") [B "hello,", B "world!"] = B "hello, world!" := by decide
  rw [e, j] at h
  exact ⟨e, h⟩

/-! ## C2: the path returned by `getFilePath` -/

theorem findChar_first (a rest : Str) (c : Nat) (ha : c ∉ a) :
    findChar (a ++ c :: rest) c = a.length := by
  unfold findChar
  rw [if_pos (by simp), List.indexOf_append_of_not_mem ha]
  simp

theorem rfindChar_last (front b : Str) (c : Nat) (hb : c ∉ b) :
    rfindChar (front ++ c :: b) c = front.length := by
  unfold rfindChar
  rw [if_pos (by simp)]
  have hr : (front ++ c :: b).reverse = b.reverse ++ c :: front.reverse := by simp
  have hb2 : c ∉ b.reverse := by simpa using hb
  rw [hr, List.indexOf_append_of_not_mem hb2]
  simp

/-- C2 (as amended). For a request line `a ++ " " ++ t ++ " " ++ b` in which
`a` and `b` hold no space and `t`, the text between the first and the last
space, is not empty, `getFilePath` returns `t` without its first byte, and
`index.html` when nothing is left of `t`. -/
theorem getFilePath_between (a t b : Str) (ha : 32 ∉ a) (hb : 32 ∉ b) (ht : t ≠ [])
    (hlen : (a ++ 32 :: (t ++ 32 :: b)).length < 2 ^ 64) :
    getFilePath (a ++ 32 :: (t ++ 32 :: b))
      = .ok (if t.tail = [] then RootFile else t.tail) := by
  have h1 : findChar (a ++ 32 :: (t ++ 32 :: b)) 32 = a.length :=
    findChar_first a _ 32 ha
  have h2 : rfindChar (a ++ 32 :: (t ++ 32 :: b)) 32 = a.length + 1 + t.length := by
    have e : a ++ 32 :: (t ++ 32 :: b) = (a ++ 32 :: t) ++ 32 :: b := by simp
    rw [e, rfindChar_last _ b 32 hb]
    simp only [List.length_append, List.length_cons]
    omega
  obtain ⟨x, t', rfl⟩ : ∃ x t', t = x :: t' := by
    cases t with
    | nil => exact absurd rfl ht
    | cons x t' => exact ⟨x, t', rfl⟩
  simp only [List.length_append, List.length_cons] at hlen h2
  unfold getFilePath
  simp only [h1, h2]
  have hn1 : a.length ≠ npos := by
    unfold npos
    omega
  have hn2 : a.length + 1 + (t'.length + 1) ≠ npos := by
    unfold npos
    omega
  rw [if_neg (by simp [hn1, hn2])]
  rw [szAdd_of_lt _ _ (by omega),
    szSub_of_le (a.length + 1 + (t'.length + 1)) a.length (by omega) (by omega),
    szSub_of_le _ 2 (by omega) (by omega)]
  have hs : substr (a ++ 32 :: (x :: t' ++ 32 :: b)) (a.length + 2)
      (a.length + 1 + (t'.length + 1) - a.length - 2) = .ok t' := by
    unfold substr
    rw [if_neg (by simp)]
    have hd : List.drop (a.length + 2) (a ++ 32 :: (x :: t' ++ 32 :: b)) = t' ++ 32 :: b := by
      rw [List.drop_append]
      simp
    have hk : a.length + 1 + (t'.length + 1) - a.length - 2 = t'.length := by omega
    rw [hd, hk]
    simp
  rw [hs]
  simp only [List.tail_cons]
  split <;> simp_all

/-- The request line `GET /cgi-bin/exec?cmd=echo&args=hello HTTP/1.1` gives the
path `cgi-bin/exec?cmd=echo&args=hello`, without the `/`. -/
theorem getFilePath_between_witness :
    getFilePath (B "GET /cgi-bin/exec?cmd=echo&args=hello HTTP/1.1")
      = .ok (B "cgi-bin/exec?cmd=echo&args=hello") := by
  have h := getFilePath_between (B "GET") (B "/cgi-bin/exec?cmd=echo&args=hello") (B "HTTP/1.1")
    (by decide) (by decide) (by decide) (by decide)
  exact h

/-- C2 (counterexample). For the request line of the claim `getFilePath`
does not return the text between the two spaces: it returns that text
without its first byte `c`. -/
theorem getFilePath_drops_first_byte :
    getFilePath (B "GET cgi-bin/exec?cmd=echo&args=hello HTTP/1.1")
        = .ok (B "gi-bin/exec?cmd=echo&args=hello")
      ∧ getFilePath (B "GET cgi-bin/exec?cmd=echo&args=hello HTTP/1.1")
        ≠ .ok (B "cgi-bin/exec?cmd=echo&args=hello") := by
  decide

/-! ## C3: the declared size of each chunk -/

theorem digitsAux_acc (b fuel n : Nat) (acc : Str) :
    digitsAux b fuel n acc = digitsAux b fuel n [] ++ acc := by
  induction fuel generalizing n acc with
  | zero => simp [digitsAux]
  | succ fuel ih =>
    simp only [digitsAux]
    split
    · simp
    · rw [ih (n / b) (digitChar (n % b) :: acc), ih (n / b) [digitChar (n % b)]]
      simp

theorem hexval_digitChar (d : Nat) (h : d < 16) : hexval (digitChar d) = d := by
  unfold hexval digitChar
  split <;> split <;> try split
  all_goals omega

theorem isxdigit_digitChar (d : Nat) (h : d < 16) : isxdigit (digitChar d) = true := by
  unfold isxdigit digitChar
  split <;> simp <;> omega

theorem parseHex_append (xs : Str) (d : Nat) :
    parseHex (xs ++ [d]) = 16 * parseHex xs + hexval d := by
  simp [parseHex, List.foldl_append]

theorem parseHex_digitsAux (fuel n : Nat) (h : n < fuel) :
    parseHex (digitsAux 16 fuel n []) = n := by
  induction fuel generalizing n with
  | zero => omega
  | succ fuel ih =>
    simp only [digitsAux]
    split
    · rename_i h0
      have hn : n < 16 := by omega
      have : n % 16 = n := Nat.mod_eq_of_lt hn
      simp [parseHex, this, hexval_digitChar n hn]
    · rename_i h0
      rw [digitsAux_acc, parseHex_append, ih (n / 16) (by omega),
        hexval_digitChar _ (Nat.mod_lt _ (by omega))]
      omega

theorem isxdigit_digitsAux (fuel n : Nat) :
    ∀ c ∈ digitsAux 16 fuel n [], isxdigit c = true := by
  induction fuel generalizing n with
  | zero => simp [digitsAux]
  | succ fuel ih =>
    simp only [digitsAux]
    split
    · intro c hc
      simp only [List.mem_singleton] at hc
      rw [hc]
      exact isxdigit_digitChar _ (Nat.mod_lt _ (by omega))
    · rw [digitsAux_acc]
      intro c hc
      rcases List.mem_append.mp hc with h1 | h1
      · exact ih _ c h1
      · simp only [List.mem_singleton] at h1
        rw [h1]
        exact isxdigit_digitChar _ (Nat.mod_lt _ (by omega))

theorem digitsAux_ne_nil (b fuel n : Nat) : digitsAux b (fuel + 1) n [] ≠ [] := by
  simp only [digitsAux]
  split
  · simp
  · rw [digitsAux_acc]
    simp

theorem parseHex_toHex (n : Nat) : parseHex (toHex n) = n :=
  parseHex_digitsAux (n + 1) n (by omega)

theorem readChunk_frame (n : Nat) (p rest : Str) (h : p.length = n) :
    readChunk (toHex n ++ B "\r\n" ++ p ++ B "\r\n" ++ rest) = some (p, rest) := by
  have e : toHex n ++ B "\r\n" ++ p ++ B "\r\n" ++ rest
      = toHex n ++ (13 :: 10 :: (p ++ 13 :: 10 :: rest)) := by
    simp [B]
  have hx : ∀ c ∈ toHex n, isxdigit c = true := isxdigit_digitsAux (n + 1) n
  have h13 : isxdigit 13 = false := by decide
  have ht : List.takeWhile isxdigit (toHex n ++ (13 :: 10 :: (p ++ 13 :: 10 :: rest)))
      = toHex n := by
    rw [List.takeWhile_append_of_pos hx]
    simp [List.takeWhile, h13]
  have hd : List.dropWhile isxdigit (toHex n ++ (13 :: 10 :: (p ++ 13 :: 10 :: rest)))
      = 13 :: 10 :: (p ++ 13 :: 10 :: rest) := by
    rw [List.dropWhile_append_of_pos hx]
    simp [List.dropWhile, h13]
  have hne : toHex n ≠ [] := digitsAux_ne_nil 16 n n
  unfold readChunk
  simp only [e, ht, hd, hne, if_false, parseHex_toHex]
  subst h
  simp

theorem readChunk_lineChunk (line rest : Str) :
    readChunk (lineChunk line ++ rest) = some (line ++ B "\n", rest) := by
  unfold lineChunk
  exact readChunk_frame _ _ rest rfl

theorem readChunk_exitChunk (exitCode : Int) (rest : Str) :
    readChunk (exitChunk exitCode ++ rest) = some (exitLine exitCode, rest) := by
  unfold exitChunk
  exact readChunk_frame _ _ rest rfl

theorem readChunks_append (j k : Nat) (s mid rest : Str) (ps qs : List Str)
    (h1 : readChunks j s = some (ps, mid)) (h2 : readChunks k mid = some (qs, rest)) :
    readChunks (j + k) s = some (ps ++ qs, rest) := by
  induction j generalizing s ps with
  | zero =>
    simp only [readChunks, Option.some.injEq, Prod.mk.injEq] at h1
    obtain ⟨rfl, rfl⟩ := h1
    simpa using h2
  | succ j ih =>
    rw [Nat.succ_add]
    simp only [readChunks] at h1 ⊢
    cases hr : readChunk s with
    | none => simp [hr] at h1
    | some pr =>
      obtain ⟨p, r⟩ := pr
      simp only [hr] at h1 ⊢
      cases hk : readChunks j r with
      | none => simp [hk] at h1
      | some qr =>
        obtain ⟨q, r2⟩ := qr
        simp only [hk, Option.some.injEq, Prod.mk.injEq] at h1
        obtain ⟨rfl, rfl⟩ := h1
        rw [ih r q hk]
        simp

theorem readChunks_lines (ls : List Str) (rest : Str) :
    readChunks ls.length ((ls.map lineChunk).flatten ++ rest)
      = some (ls.map (fun l => l ++ B "\n"), rest) := by
  induction ls with
  | nil => simp [readChunks]
  | cons l ls ih =>
    simp only [List.map_cons, List.flatten_cons, List.length_cons, List.append_assoc, readChunks,
      readChunk_lineChunk, ih]

set_option maxRecDepth 100000 in
theorem html2_const_lengths :
    html2First.length = 159 ∧ html2Middle.length = 276 ∧ html2Last.length = 50 := by
  decide

set_option maxRecDepth 100000 in
theorem html1_frame :
    html1 = toHex 342 ++ B "\r\n" ++ html1Payload ++ B "\r\n"
      ∧ html1Payload.length = 352 ∧ newLineCount html1Payload = 10 := by
  decide

theorem html2Size_eq (statistics jsonStr : Str)
    (h : (html2Body statistics jsonStr).length < 2 ^ 64) :
    html2Size statistics jsonStr + 17 + newLineCount statistics
      = (html2Body statistics jsonStr).length := by
  have hc : newLineCount statistics ≤ statistics.length := List.count_le_length _ _
  obtain ⟨h1, h2, h3⟩ := html2_const_lengths
  have hl : (html2Body statistics jsonStr).length
      = 159 + statistics.length + 276 + jsonStr.length + 50 := by
    simp [html2Body, h1, h2, h3]
    omega
  unfold html2Size
  rw [hl] at h ⊢
  rw [szSub_of_le _ 17 h (by omega), szSub_of_le _ _ (by omega) (by omega)]
  omega

/-- C3 (as amended). In a response of `sendData`, a chunk reader that takes
each size line at its word reads the chunks of the child's output lines and
the chunk of the exit code (when `pid` is not -1) and returns exactly their
payloads: their size lines are the exact byte counts. The preamble chunk
declares 342 (hexadecimal 156) for a payload of 352 bytes, 10 of which are
`\r`; the block of `html2` declares the length of its payload minus 17 minus
the number of `\r` in the statistics rows. -/
theorem chunk_sizes (mimeType : Str) (pid : Int) (is html2Str : Str) (st : ChildState)
    (statistics jsonStr : Str) (h : (html2Body statistics jsonStr).length < 2 ^ 64) :
    (html1 = toHex 342 ++ B "\r\n" ++ html1Payload ++ B "\r\n"
        ∧ html1Payload.length = 352 ∧ newLineCount html1Payload = 10)
      ∧ (∃ body exits,
          exits = (if pid ≠ -1 then [(waitpid pid 0 st).exitCode] else [])
          ∧ sendData mimeType pid is html2Str st = header200 mimeType ++ html1 ++ body
          ∧ readChunks ((getlines is).length + exits.length) body
            = some ((getlines is).map (fun l => l ++ B "\n") ++ exits.map exitLine,
                html2Str ++ B "0\r\n"))
      ∧ (html2Block statistics jsonStr
            = toHex (html2Size statistics jsonStr) ++ B "\r\n"
                ++ html2Body statistics jsonStr ++ B "\r\n"
          ∧ html2Size statistics jsonStr + 17 + newLineCount statistics
            = (html2Body statistics jsonStr).length) := by
  refine ⟨html1_frame, ?_, rfl, html2Size_eq statistics jsonStr h⟩
  · refine ⟨((getlines is).map lineChunk).flatten
        ++ ((if pid ≠ -1 then exitChunk (waitpid pid 0 st).exitCode else [])
        ++ (html2Str ++ B "0\r\n")), _, rfl, ?_, ?_⟩
    · simp [sendData, List.append_assoc]
    · apply readChunks_append _ _ _ _ _ _ _ (readChunks_lines _ _)
      by_cases hp : pid = -1
      · simp [hp, readChunks]
      · simp [hp, readChunks, readChunk_exitChunk]

set_option maxRecDepth 100000 in
/-- The block of `html2` for one table row and no chart declares the length of
its payload minus 17 minus 1, the row holding one `\r`. -/
theorem chunk_sizes_witness :
    (html2Body (statRow 1 (B "0.01") (B "0") 1234) (B "\r\n")).length < 2 ^ 64
      ∧ html2Size (statRow 1 (B "0.01") (B "0") 1234) (B "\r\n") + 17 + 1
        = (html2Body (statRow 1 (B "0.01") (B "0") 1234) (B "\r\n")).length := by
  have h := chunk_sizes (B "text/html") 1234 (B "hello\n")
    (html2Block (statRow 1 (B "0.01") (B "0") 1234) (B "\r\n")) .reaped
    (statRow 1 (B "0.01") (B "0") 1234) (B "\r\n") (by decide)
  exact ⟨by decide, h.2.2.2⟩

set_option maxRecDepth 100000 in
/-- C3 (counterexample). The size line of the preamble chunk is `156` while
its payload has 352 bytes, hexadecimal 160, so that a chunk reader does not
find the end of the chunk where the size line puts it; and the block that
`html2` builds for no sample and no chart declares 470 for a payload of 487
bytes. -/
theorem preamble_size_not_exact :
    (html1 = B "156" ++ B "\r\n" ++ html1Payload ++ B "\r\n"
        ∧ toHex html1Payload.length = B "160" ∧ readChunk html1 = none)
      ∧ (html2Block [] (B "\r\n") = toHex 470 ++ B "\r\n" ++ html2Body [] (B "\r\n") ++ B "\r\n"
        ∧ (html2Body [] (B "\r\n")).length = 487) := by
  decide

/-! ## C4: the end of the response -/

/-- C4. Whatever the child wrote, the pid and the block of `html2`, the
bytes that `sendData` writes end with `0\r\n` and never with the terminating
chunk `0\r\n\r\n`, with which every response of `send404` ends. -/
theorem sendData_trailer (mimeType : Str) (pid : Int) (is html2Str : Str) (st : ChildState)
    (path : Str) :
    B "0\r\n" <:+ sendData mimeType pid is html2Str st
      ∧ ¬ B "0\r\n\r\n" <:+ sendData mimeType pid is html2Str st
      ∧ B "0\r\n\r\n" <:+ send404 path := by
  refine ⟨?_, ?_, ?_⟩
  · unfold sendData
    exact List.suffix_append _ _
  · rintro ⟨s, hs⟩
    unfold sendData at hs
    have e : s ++ B "0\r\n\r\n" = (s ++ [48, 13]) ++ [10, 13, 10] := by
      simp [B]
    rw [e] at hs
    have h3 := List.append_inj_right' hs (by simp [B])
    simp [B] at h3
  · unfold send404
    exact List.suffix_append _ _

/-! ## C5: paths without the CGI prefix -/

theorem dispatch_not_cgi (path : Str) (h : ¬ cgiPrefix <+: path) :
    dispatch path = .ok none := by
  unfold dispatch substr
  simp only [Nat.not_lt_zero, if_false, List.drop_zero, gt_iff_lt]
  rw [if_neg]
  intro h2
  apply h
  rw [List.prefix_iff_eq_take]
  exact h2.symm

/-- C5. For a request line whose path, as `getFilePath` extracts it, does not
start with `cgi-bin/exec?cmd=`, `serveClient` hands nothing to `exec` and
writes nothing: no status line, no header and no body. The branch that calls
`send404` is commented out, so the response `404 Not Found` that the header
of the source file and the comment of `send404` announce is never written. -/
theorem serveClient_not_cgi (w : World) (line path : Str) (genChart : Bool)
    (hp : getFilePath line = .ok path) (h : ¬ cgiPrefix <+: path) :
    dispatch path = .ok none ∧ serveClient w line genChart = .ok [] := by
  refine ⟨dispatch_not_cgi path h, ?_⟩
  unfold serveClient
  rw [hp]
  dsimp only
  rw [dispatch_not_cgi path h]

/-- The request line `GET /missing.html HTTP/1.1` has the path `missing.html`,
and `serveClient` writes nothing for it. -/
theorem serveClient_not_cgi_witness :
    getFilePath (B "GET /missing.html HTTP/1.1") = .ok (B "missing.html")
      ∧ ¬ cgiPrefix <+: B "missing.html"
      ∧ dispatch (B "missing.html") = .ok none
      ∧ serveClient worldFalse (B "GET /missing.html HTTP/1.1") true = .ok [] :=
  ⟨by decide, by decide,
    serveClient_not_cgi worldFalse (B "GET /missing.html HTTP/1.1") (B "missing.html") true
      (by decide) (by decide)⟩

/-- For the request line `GET /missing.html HTTP/1.1` of C5 `serveClient`
writes no byte, so that it writes no response that starts with the status
line `HTTP/1.1 404 Not Found`. -/
theorem missing_file_no_response :
    serveClient worldFalse (B "GET /missing.html HTTP/1.1") false = .ok []
      ∧ ¬ ∃ out, serveClient worldFalse (B "GET /missing.html HTTP/1.1") false = .ok out
          ∧ B "HTTP/1.1 404 Not Found" <+: out := by
  have e : serveClient worldFalse (B "GET /missing.html HTTP/1.1") false = .ok [] := by decide
  refine ⟨e, ?_⟩
  rintro ⟨out, h, hp⟩
  rw [e] at h
  have ho : out = [] := (Except.ok.inj h).symm
  rw [ho] at hp
  exact absurd hp (by decide)

/-! ## C6: a CGI path without the marker `&args=` -/

/-- C6. For the request line `GET /cgi-bin/exec?cmd=ls HTTP/1.1`, whose path
`cgi-bin/exec?cmd=ls` has no `&args=`, the search returns `npos`, the position
`npos + 6` wraps to 5, and `serveClient` hands to `exec` the command `ls` with
the argument text `in/exec?cmd=ls`, the path from position 5 on: a command is
launched, with the argument vector `[ls, in/exec?cmd=ls]`. -/
theorem missing_marker_runs_command :
    getFilePath (B "GET /cgi-bin/exec?cmd=ls HTTP/1.1") = .ok (B "cgi-bin/exec?cmd=ls")
      ∧ find (B "cgi-bin/exec?cmd=ls") argsMarker prefixLen = npos
      ∧ szAdd npos 6 = 5
      ∧ dispatch (B "cgi-bin/exec?cmd=ls") = .ok (some (B "ls", B "in/exec?cmd=ls"))
      ∧ cmdArgs (B "ls") (B "in/exec?cmd=ls") = [B "ls", B "in/exec?cmd=ls"]
      ∧ (∀ (w : World) (genChart : Bool),
          serveClient w (B "GET /cgi-bin/exec?cmd=ls HTTP/1.1") genChart
            = exec w (B "ls") (B "in/exec?cmd=ls") genChart) := by
  refine ⟨by decide, by decide, by decide, by decide, by decide, fun w genChart => ?_⟩
  have h1 : getFilePath (B "GET /cgi-bin/exec?cmd=ls HTTP/1.1") = .ok (B "cgi-bin/exec?cmd=ls") := by
    decide
  have h2 : dispatch (B "cgi-bin/exec?cmd=ls") = .ok (some (B "ls", B "in/exec?cmd=ls")) := by
    decide
  unfold serveClient
  rw [h1]
  dsimp only
  rw [h2]

/-! ## C7: the exit code shown to the client -/

theorem runChild_isSome (execvp : List Str → Option ChildExit) (arg0 : Str) (rest : List Str) :
    ∃ child, runChild execvp (arg0 :: rest) = some child := by
  unfold runChild
  cases execvp (arg0 :: rest) with
  | none => exact ⟨_, rfl⟩
  | some run => exact ⟨run, rfl⟩

theorem html2_reaps (fadd : Str → Str → Except Err FloatObs) (pid : Int) (polls : List Poll)
    (status : Int) (genChart : Bool) (blk : Str) (st : ChildState)
    (h : html2 fadd pid polls (.unreaped status) genChart = .ok (blk, st)) :
    st = .reaped := by
  unfold html2 getStats at h
  cases hg : getStatsLoop polls [] [] 1 with
  | error e => simp [hg] at h
  | ok r =>
    obtain ⟨stats, values⟩ := r
    simp only [hg] at h
    cases hj : (if genChart = false then (Except.ok (B "\r\n") : Except Err Str)
        else json fadd values) with
    | error e => simp [hj] at h
    | ok jsonStr =>
      simp only [hj, Except.ok.injEq, Prod.mk.injEq] at h
      rw [← h.2]
      rfl

/-- C7. In every response of `exec` for a child with a pid other than -1,
whatever the wait status of the child, the chunk of the exit code is the one
for `exitCode = 0`: the `waitpid` call that ends the loop of `getStats` has
collected the wait status, so that the call of `sendData` after the join
fails and leaves `exitCode` at its initial value. -/
theorem exit_code_shown_is_zero (w : World) (cmd args : Str) (genChart : Bool) (out : Str)
    (hpid : w.pid ≠ -1) (h : exec w cmd args genChart = .ok out) :
    ∃ child blk, runChild w.execvp (cmdArgs cmd args) = some child
      ∧ out = header200 (B "text/html") ++ html1
          ++ ((getlines child.stdout).map lineChunk).flatten
          ++ exitChunk 0 ++ blk ++ B "0\r\n" := by
  obtain ⟨child, hc⟩ := runChild_isSome w.execvp cmd (split args)
  unfold exec at h
  unfold cmdArgs at h ⊢
  rw [hc] at h
  dsimp only at h
  cases hh : html2 w.fadd w.pid w.polls (.unreaped child.status) genChart with
  | error e => simp [hh] at h
  | ok r =>
    obtain ⟨blk, st⟩ := r
    have hst : st = .reaped := html2_reaps _ _ _ _ _ _ _ hh
    simp only [hh, Except.ok.injEq] at h
    refine ⟨child, blk, hc, ?_⟩
    rw [← h, hst]
    unfold sendData
    rw [if_pos hpid]
    rfl

set_option maxRecDepth 100000 in
/-- The command `false` ends by `exit(1)`, wait status 256, and the response
shows `Exit code: 0`. -/
theorem exit_code_shown_is_zero_witness :
    runChild worldFalse.execvp (cmdArgs (B "false") []) = some { stdout := [], status := 256 }
      ∧ serveClient worldFalse (B "GET /cgi-bin/exec?cmd=false&args= HTTP/1.1") false
          = .ok responseFalse
      ∧ exitChunk 0 = B "10\r\n\r\nExit code: 0\r\n\r\n"
      ∧ ∃ child blk, runChild worldFalse.execvp (cmdArgs (B "false") []) = some child
          ∧ responseFalse = header200 (B "text/html") ++ html1
              ++ ((getlines child.stdout).map lineChunk).flatten
              ++ exitChunk 0 ++ blk ++ B "0\r\n" :=
  ⟨by decide, by decide, by decide,
    exit_code_shown_is_zero worldFalse (B "false") [] false responseFalse (by decide)
      (by decide)⟩

/-! ## C8: a command that cannot be executed -/

/-- C8. When `execvp` returns, `runChild` on an argument list with the
command name `arg0` in front writes `Command arg0 not found!` and ends the
child by `exit(0)`: the wait status is 0. -/
theorem runChild_not_found_status (arg0 : Str) (rest : List Str) :
    runChild (fun _ => none) (arg0 :: rest)
        = some { stdout := B "Command " ++ arg0 ++ B " not found!\n", status := 0 } := by
  rfl

/-! ## C9: request lines on which the parser throws -/

/-- C9. `getFilePath` throws `std::out_of_range` on the request line `GET `,
whose only space is its last byte; `url_decode` throws
`std::invalid_argument` on `%zz` and on `%`; and in every world `serveClient`
throws on the request line `GET /cgi-bin/exec?cmd=ls&args=%zz HTTP/1.1`. -/
theorem parser_throws :
    getFilePath (B "GET ") = .error .out_of_range
      ∧ url_decode (B "%zz") = .error .invalid_argument
      ∧ url_decode (B "%") = .error .invalid_argument
      ∧ (∀ (w : World) (genChart : Bool),
          serveClient w (B "GET ") genChart = .error .out_of_range
            ∧ serveClient w (B "GET /cgi-bin/exec?cmd=ls&args=%zz HTTP/1.1") genChart
              = .error .invalid_argument) := by
  refine ⟨by decide, by decide, by decide, fun w genChart => ⟨?_, ?_⟩⟩
  · have h1 : getFilePath (B "GET ") = .error .out_of_range := by decide
    unfold serveClient
    rw [h1]
  · have h1 : getFilePath (B "GET /cgi-bin/exec?cmd=ls&args=%zz HTTP/1.1")
        = .ok (B "cgi-bin/exec?cmd=ls&args=%zz") := by decide
    have h2 : dispatch (B "cgi-bin/exec?cmd=ls&args=%zz") = .error .invalid_argument := by
      decide
    unfold serveClient
    rw [h1]
    dsimp only
    rw [h2]

/-! ## C10: the float-shortening rule of `strFl` -/

theorem findAt_dot (I rest : Str) (i : Nat) (hI : 46 ∉ I) :
    findAt (B ".") (I ++ 46 :: rest) i = i + I.length := by
  induction I generalizing i with
  | nil => simp [findAt, B]
  | cons x I ih =>
    have hx : x ≠ 46 := fun h => hI (by simp [h])
    have hI2 : 46 ∉ I := fun h => hI (by simp [h])
    rw [List.cons_append, findAt]
    have hp : (B ".").isPrefixOf (x :: (I ++ 46 :: rest)) = false := by
      simp [B, List.isPrefixOf, Ne.symm hx]
    simp only [hp, Bool.false_eq_true, if_false]
    rw [ih _ hI2]
    simp only [List.length_cons]
    omega

/-- C10. The rule of `strFl`: a value equal to zero gives `0`; a value not
equal to zero whose text `std::to_string` is `I.d1d2d3d4d5d6`, with no `.` in
the integer part `I`, gives `I.d1` when `d2` is the character `0` and
`I.d1d2` otherwise: the text is cut after two decimals and then at most one
trailing `0` is dropped, also when `d1` is `0` as well. -/
theorem strFl_rule (v : FloatObs) (I : Str) (d1 d2 d3 d4 d5 d6 : Nat)
    (hI : 46 ∉ I) (hlen : I.length + 7 < 2 ^ 64) :
    (v.isZero = true → strFl v = .ok (B "0"))
      ∧ (v.isZero = false → v.text = I ++ 46 :: [d1, d2, d3, d4, d5, d6] →
          strFl v = .ok (if d2 = 48 then I ++ [46, d1] else I ++ [46, d1, d2])) := by
  refine ⟨fun hz => ?_, fun hz ht => ?_⟩
  · simp [strFl, hz]
  · have hf : find v.text (B ".") 0 = I.length := by
      unfold find
      rw [if_neg (by simp), ht, List.drop_zero, findAt_dot I _ 0 hI]
      simp
    have hl : (I ++ [46, d1, d2]).length = I.length + 3 := by simp
    have h1 : substr (I ++ 46 :: [d1, d2, d3, d4, d5, d6]) 0 (I.length + 3)
        = .ok (I ++ [46, d1, d2]) := by
      unfold substr
      rw [if_neg (by simp), List.drop_zero]
      have e : I ++ 46 :: [d1, d2, d3, d4, d5, d6] = (I ++ [46, d1, d2]) ++ [d3, d4, d5, d6] := by
        simp
      rw [e, ← hl, List.take_left]
    have e2 : I ++ [46, d1, d2] = (I ++ [46, d1]) ++ [d2] := by simp
    have l2 : I.length + 3 - 1 = (I ++ [46, d1]).length := by simp
    have h2 : substr (I ++ [46, d1, d2]) (I.length + 3 - 1) npos = .ok [d2] := by
      unfold substr
      rw [if_neg (by simp)]
      rw [e2, l2, List.drop_left]
      have hn : [d2].length ≤ npos := by
        unfold npos
        simp
      rw [List.take_of_length_le hn]
    have h3 : substr (I ++ [46, d1, d2]) 0 (I.length + 3 - 1) = .ok (I ++ [46, d1]) := by
      unfold substr
      rw [if_neg (by simp), List.drop_zero]
      rw [e2, l2, List.take_left]
    have hb : B "0" = [48] := by decide
    unfold strFl
    rw [if_neg (by simp [hz])]
    dsimp only
    rw [hf, szAdd_of_lt _ _ (by omega), ht, h1]
    dsimp only
    rw [hl, szSub_of_le (I.length + 3) 1 (by omega) (by omega), h2]
    dsimp only
    rw [hb]
    by_cases hd : d2 = 48
    · rw [if_pos (by rw [hd]), if_pos hd, h3]
    · rw [if_neg (by simpa using hd), if_neg hd]

/-- The rule of `strFl` on the texts `0.000000` (a zero), `12.345678`,
`0.500000` and `3.000000`. -/
theorem strFl_rule_witness :
    strFl { isZero := true, text := B "0.000000" } = .ok (B "0")
      ∧ strFl { isZero := false, text := B "12.345678" } = .ok (B "12.34")
      ∧ strFl { isZero := false, text := B "0.500000" } = .ok (B "0.5")
      ∧ strFl { isZero := false, text := B "3.000000" } = .ok (B "3.0") := by
  have a := (strFl_rule { isZero := true, text := B "0.000000" } (B "0") 48 48 48 48 48 48
    (by decide) (by decide)).1 rfl
  have b := (strFl_rule { isZero := false, text := B "12.345678" } (B "12") 51 52 53 54 55 56
    (by decide) (by decide)).2 rfl rfl
  have c := (strFl_rule { isZero := false, text := B "0.500000" } (B "0") 53 48 48 48 48 48
    (by decide) (by decide)).2 rfl rfl
  have d := (strFl_rule { isZero := false, text := B "3.000000" } (B "3") 48 48 48 48 48 48
    (by decide) (by decide)).2 rfl rfl
  exact ⟨a, b, c, d⟩

/-! ## C11: `strFl` on the value 1.005 -/

/-- C11 (as amended). For the value 1.005, which is not zero and whose text
`std::to_string` is `1.005000`, `strFl` returns `1.0`: the text is cut to
`1.00`, and the trailing `0` of that is dropped. -/
theorem strFl_1005 :
    strFl { isZero := false, text := B "1.005000" } = .ok (B "1.0") := by
  decide

/-- C11 (counterexample). For the value 1.005 `strFl` does not return
`1.00`. -/
theorem strFl_1005_not_100 :
    strFl { isZero := false, text := B "1.005000" } ≠ .ok (B "1.00") := by
  decide

/-! ## C12: the elapsed seconds in the samples and in the table rows -/

theorem findAt_bound (pat s : Str) (i : Nat) :
    findAt pat s i = npos ∨ findAt pat s i ≤ i + s.length := by
  induction s generalizing i with
  | nil =>
    unfold findAt
    split
    · right
      simp
    · left
      rfl
  | cons c cs ih =>
    unfold findAt
    split
    · right
      omega
    · rcases ih (i + 1) with h | h
      · left
        exact h
      · right
        simp only [List.length_cons]
        omega

theorem substr_zero (s : Str) (len : Nat) : substr s 0 len = .ok (s.take len) := by
  unfold substr
  simp

theorem substr_last (s : Str) (p : Nat) (h : p ≤ s.length) (hl : s.length ≤ npos) :
    substr s p npos = .ok (s.drop p) := by
  unfold substr
  rw [if_neg (by omega)]
  have : (s.drop p).length ≤ npos := by
    rw [List.length_drop]
    omega
  rw [List.take_of_length_le this]

theorem strFl_cut_pos (text : Str) (h : text.length + 3 < 2 ^ 64) :
    0 < szAdd (find text (B ".") 0) 3 := by
  have hb : find text (B ".") 0 = npos ∨ find text (B ".") 0 ≤ text.length := by
    unfold find
    rw [if_neg (by simp), List.drop_zero]
    simpa using findAt_bound (B ".") text 0
  rcases hb with hb | hb
  · rw [hb]
    decide
  · rw [szAdd_of_lt _ _ (by omega)]
    omega

theorem strFl_total (fl : FloatObs) (h : okText fl) : ∃ c, strFl fl = .ok c := by
  obtain ⟨hne, hlen⟩ := h
  by_cases hz : fl.isZero = true
  · exact ⟨B "0", by simp [strFl, hz]⟩
  · have hk := strFl_cut_pos fl.text hlen
    generalize hkd : szAdd (find fl.text (B ".") 0) 3 = k at hk
    have hf1 : 1 ≤ (fl.text.take k).length := by
      rw [List.length_take]
      have : 0 < fl.text.length := List.length_pos.mpr hne
      omega
    have hf2 : (fl.text.take k).length < 2 ^ 64 := by
      rw [List.length_take]
      omega
    have e2 : substr (fl.text.take k) (szSub (fl.text.take k).length 1) npos
        = .ok ((fl.text.take k).drop ((fl.text.take k).length - 1)) := by
      rw [szSub_of_le _ 1 hf2 hf1]
      exact substr_last _ _ (by omega) (by unfold npos; omega)
    unfold strFl
    rw [if_neg hz]
    dsimp only
    rw [hkd, substr_zero]
    dsimp only
    rw [e2]
    dsimp only
    split
    · rw [substr_zero]
      exact ⟨_, rfl⟩
    · exact ⟨_, rfl⟩

theorem wrapInt_succ (t : Int) (h0 : 0 ≤ t) (h1 : t + 1 < 2 ^ 31) : wrapInt (t + 1) = t + 1 := by
  unfold wrapInt
  norm_num at h1 ⊢
  omega

theorem getStatsLoop_cells (polls : List Poll) (stats : Str) (values : List Str) (t : Int)
    (hwf : ∀ p ∈ polls, okText p.userTime ∧ okText p.systemTime)
    (h0 : 0 ≤ t) (hn : t + polls.length < 2 ^ 31) :
    ∃ cells : List Cell,
      List.Forall₂ (fun p c => strFl p.userTime = .ok c.utime
          ∧ strFl p.systemTime = .ok c.stime ∧ c.memory = p.memory) polls cells
        ∧ getStatsLoop polls stats values t
          = .ok (stats ++ (rowsFrom t cells).flatten, values ++ entriesFrom t cells) := by
  induction polls generalizing stats values t with
  | nil => exact ⟨[], List.Forall₂.nil, by simp [getStatsLoop, rowsFrom, entriesFrom]⟩
  | cons p ps ih =>
    obtain ⟨hu, hs⟩ := hwf p (by simp)
    obtain ⟨u, eu⟩ := strFl_total _ hu
    obtain ⟨s, es⟩ := strFl_total _ hs
    have hps : ∀ q ∈ ps, okText q.userTime ∧ okText q.systemTime :=
      fun q hq => hwf q (by simp [hq])
    simp only [List.length_cons, Nat.cast_add, Nat.cast_one] at hn
    have hw : wrapInt (t + 1) = t + 1 := wrapInt_succ t h0 (by omega)
    obtain ⟨cells, hc, hl⟩ := ih (stats ++ statRow t u s p.memory)
      (values ++ [statValue t u s p.memory]) (t + 1) hps (by omega) (by omega)
    refine ⟨{ utime := u, stime := s, memory := p.memory } :: cells,
      List.Forall₂.cons ⟨eu, es, rfl⟩ hc, ?_⟩
    rw [getStatsLoop, eu, es]
    dsimp only
    rw [hw, hl]
    simp [rowsFrom, entriesFrom]

theorem entriesFrom_length (k : Int) (cells : List Cell) :
    (entriesFrom k cells).length = cells.length := by
  induction cells generalizing k with
  | nil => rfl
  | cons c cs ih => simp [entriesFrom, ih]

theorem rowsFrom_length (k : Int) (cells : List Cell) :
    (rowsFrom k cells).length = cells.length := by
  induction cells generalizing k with
  | nil => rfl
  | cons c cs ih => simp [rowsFrom, ih]

theorem entriesFrom_get (k : Int) (cells : List Cell) (i : Nat) (c : Cell)
    (h : cells.get? i = some c) :
    (entriesFrom k cells).get? i = some (statValue (k + i) c.utime c.stime c.memory) := by
  induction cells generalizing k i with
  | nil => simp at h
  | cons d ds ih =>
    cases i with
    | zero =>
      simp only [List.get?_cons_zero, Option.some.injEq] at h
      simp [entriesFrom, h]
    | succ i =>
      simp only [List.get?_cons_succ] at h
      simp only [entriesFrom, List.get?_cons_succ]
      rw [ih (k + 1) i h]
      have : k + 1 + (i : Int) = k + ((i + 1 : Nat) : Int) := by push_cast; ring
      rw [this]

theorem rowsFrom_get (k : Int) (cells : List Cell) (i : Nat) (c : Cell)
    (h : cells.get? i = some c) :
    (rowsFrom k cells).get? i = some (statRow (k + i) c.utime c.stime c.memory) := by
  induction cells generalizing k i with
  | nil => simp at h
  | cons d ds ih =>
    cases i with
    | zero =>
      simp only [List.get?_cons_zero, Option.some.injEq] at h
      simp [rowsFrom, h]
    | succ i =>
      simp only [List.get?_cons_succ] at h
      simp only [rowsFrom, List.get?_cons_succ]
      rw [ih (k + 1) i h]
      have : k + 1 + (i : Int) = k + ((i + 1 : Nat) : Int) := by push_cast; ring
      rw [this]

/-- C12. For a run of the sampling loop in which the exit check finds the
child still running `n` times (the list `polls`, with `n + 1` below `2 ^ 31`,
whatever the numbers read in each round), `getStats` returns `n` table rows
and `n` samples, and the row and the sample at position `k`, counted from 0,
hold the elapsed-seconds value `k + 1`: the run 1, 2, ..., `n`. -/
theorem getStats_elapsed (pid : Int) (polls : List Poll) (st : ChildState)
    (hwf : ∀ p ∈ polls, okText p.userTime ∧ okText p.systemTime)
    (hn : polls.length + 1 < 2 ^ 31) :
    ∃ cells : List Cell,
      List.Forall₂ (fun p c => strFl p.userTime = .ok c.utime
          ∧ strFl p.systemTime = .ok c.stime ∧ c.memory = p.memory) polls cells
        ∧ getStats pid polls st
          = .ok ((rowsFrom 1 cells).flatten, entriesFrom 1 cells, (waitpid pid 0 st).state)
        ∧ (entriesFrom 1 cells).length = polls.length
        ∧ (rowsFrom 1 cells).length = polls.length
        ∧ ∀ k, k < polls.length → ∃ c, cells.get? k = some c
            ∧ (entriesFrom 1 cells).get? k
              = some (statValue ((k : Int) + 1) c.utime c.stime c.memory)
            ∧ (rowsFrom 1 cells).get? k
              = some (statRow ((k : Int) + 1) c.utime c.stime c.memory) := by
  have hn2 : (1 : Int) + polls.length < 2 ^ 31 := by
    have : ((polls.length + 1 : Nat) : Int) < 2 ^ 31 := by exact_mod_cast hn
    push_cast at this
    omega
  obtain ⟨cells, hc, hl⟩ := getStatsLoop_cells polls [] [] 1 hwf (by omega) hn2
  have hlen : cells.length = polls.length := hc.length_eq.symm
  refine ⟨cells, hc, ?_, ?_, ?_, ?_⟩
  · unfold getStats
    rw [hl]
    simp
  · rw [entriesFrom_length, hlen]
  · rw [rowsFrom_length, hlen]
  · intro k hk
    have hk2 : k < cells.length := by omega
    refine ⟨cells.get ⟨k, hk2⟩, List.get?_eq_get hk2, ?_, ?_⟩
    · rw [entriesFrom_get 1 cells k _ (List.get?_eq_get hk2)]
      congr 2
      omega
    · rw [rowsFrom_get 1 cells k _ (List.get?_eq_get hk2)]
      congr 2
      omega

set_option maxRecDepth 100000 in
/-- Two rounds of the loop give the rows and the samples for the seconds 1
and 2. -/
theorem getStats_elapsed_witness :
    getStats 1234
        [{ userTime := { isZero := false, text := B "0.010000" },
            systemTime := { isZero := true, text := B "0.000000" }, memory := 1234 },
          { userTime := { isZero := false, text := B "1.239000" },
            systemTime := { isZero := false, text := B "0.129999" }, memory := 1300 }]
        (.unreaped 0)
      = .ok (B "\r\n       <tr><td>1</td><td>0.01</td><td>0</td><td>1234</td></tr>"
            ++ B "\r\n       <tr><td>2</td><td>1.23</td><td>0.12</td><td>1300</td></tr>",
          [B "1 0.01 0 1234", B "2 1.23 0.12 1300"], .reaped)
      ∧ ∃ cells : List Cell, cells.length = 2
        ∧ ∀ k, k < 2 → ∃ c, cells.get? k = some c
            ∧ (entriesFrom 1 cells).get? k
              = some (statValue ((k : Int) + 1) c.utime c.stime c.memory) := by
  refine ⟨by decide, ?_⟩
  obtain ⟨cells, hc, _, _, _, hk⟩ := getStats_elapsed 1234
    [{ userTime := { isZero := false, text := B "0.010000" },
        systemTime := { isZero := true, text := B "0.000000" }, memory := 1234 },
      { userTime := { isZero := false, text := B "1.239000" },
        systemTime := { isZero := false, text := B "0.129999" }, memory := 1300 }]
    (.unreaped 0)
    (by
      intro p hp
      simp only [List.mem_cons, List.mem_singleton, List.not_mem_nil, or_false] at hp
      rcases hp with rfl | rfl <;> exact ⟨⟨by decide, by decide⟩, ⟨by decide, by decide⟩⟩)
    (by decide)
  refine ⟨cells, hc.length_eq.symm, fun k hk2 => ?_⟩
  obtain ⟨c, h1, h2, _⟩ := hk k hk2
  exact ⟨c, h1, h2⟩

/-! ## C13: the chart data built by `json` -/

theorem isdigit_digitsAux (fuel n : Nat) :
    ∀ c ∈ digitsAux 10 fuel n [], isdigit c = true := by
  induction fuel generalizing n with
  | zero => simp [digitsAux]
  | succ fuel ih =>
    have hd : isdigit (digitChar (n % 10)) = true := by
      have : n % 10 < 10 := Nat.mod_lt _ (by omega)
      unfold isdigit digitChar
      rw [if_pos this]
      simp
      omega
    simp only [digitsAux]
    split
    · intro c hc
      simp only [List.mem_singleton] at hc
      rw [hc]
      exact hd
    · rw [digitsAux_acc]
      intro c hc
      rcases List.mem_append.mp hc with h1 | h1
      · exact ih _ c h1
      · simp only [List.mem_singleton] at h1
        rw [h1]
        exact hd

theorem parseDec_digitsAux (fuel n : Nat) (h : n < fuel) :
    (digitsAux 10 fuel n []).foldl (fun a d => 10 * a + (d - 48)) 0 = n := by
  induction fuel generalizing n with
  | zero => omega
  | succ fuel ih =>
    have hm : n % 10 < 10 := Nat.mod_lt _ (by omega)
    have hd : digitChar (n % 10) - 48 = n % 10 := by
      unfold digitChar
      rw [if_pos hm]
      omega
    simp only [digitsAux]
    split
    · rename_i h0
      simp only [List.foldl_cons, List.foldl_nil, hd]
      omega
    · rename_i h0
      rw [digitsAux_acc, List.foldl_append, ih (n / 10) (by omega)]
      simp only [List.foldl_cons, List.foldl_nil, hd]
      omega

theorem to_string_nat (n : Nat) : to_string (n : Int) = digitsAux 10 (n + 1) n [] := by
  unfold to_string
  rw [if_neg (by omega)]
  simp

theorem isdigit_to_string (n : Nat) : ∀ c ∈ to_string (n : Int), isdigit c = true := by
  rw [to_string_nat]
  exact isdigit_digitsAux _ _

theorem to_string_ne_nil (n : Nat) : to_string (n : Int) ≠ [] := by
  rw [to_string_nat]
  exact digitsAux_ne_nil 10 n n

theorem isspace_of_isdigit (c : Nat) (h : isdigit c = true) : isspace c = false := by
  unfold isdigit at h
  unfold isspace
  simp at h ⊢
  omega

theorem isWord_to_string (n : Nat) : isWord (to_string (n : Int)) :=
  ⟨to_string_ne_nil n, fun b hb => isspace_of_isdigit b (isdigit_to_string n b hb)⟩

theorem readSign_digit (d : Nat) (t : Str) (h : isdigit d = true) :
    readSign (d :: t) = (false, d :: t) := by
  have h1 : d ≠ 45 := by
    rintro rfl
    simp [isdigit] at h
  have h2 : d ≠ 43 := by
    rintro rfl
    simp [isdigit] at h
  rw [readSign]
  all_goals simp_all

theorem stoul_to_string (n : Nat) (h : n < 2 ^ 64) : stoul (to_string (n : Int)) = .ok n := by
  have hd := isdigit_to_string n
  have hne := to_string_ne_nil n
  have hp : (to_string (n : Int)).foldl (fun a d => 10 * a + (d - 48)) 0 = n := by
    rw [to_string_nat]
    exact parseDec_digitsAux (n + 1) n (by omega)
  generalize to_string (n : Int) = D at hd hne hp
  obtain ⟨d, t, rfl⟩ : ∃ d t, D = d :: t := by
    cases D with
    | nil => exact absurd rfl hne
    | cons d t => exact ⟨d, t, rfl⟩
  have hd0 : isdigit d = true := hd d (by simp)
  have hs : isspace d = false := isspace_of_isdigit d hd0
  have e1 : List.dropWhile isspace (d :: t) = d :: t := by
    rw [List.dropWhile_cons_of_neg (by simp [hs])]
  have e2 : List.takeWhile isdigit (d :: t) = d :: t := by
    rw [List.takeWhile_eq_self_iff]
    exact hd
  unfold stoul
  rw [e1, readSign_digit d t hd0]
  dsimp only
  rw [e2, if_neg (by simp), hp, if_neg (by omega)]
  simp

theorem split_sampleLine (k : Nat) (x : Sample)
    (hu : isWord x.utime) (hs : isWord x.stime) (hm : isWord x.memory) :
    split (sampleLine k x) = [to_string (k : Int), x.utime, x.stime, x.memory] := by
  have e : sampleLine k x
      = joinWith (B " ") [to_string (k : Int), x.utime, x.stime, x.memory] := by
    simp [sampleLine, joinWith, List.append_assoc]
  have hk := isWord_to_string k
  rw [e]
  apply split_joinWith
  · intro w hw
    simp only [List.mem_cons, List.mem_singleton, List.not_mem_nil, or_false] at hw
    rcases hw with rfl | rfl | rfl | rfl
    · exact hk.1
    · exact hu.1
    · exact hs.1
    · exact hm.1
  · intro w hw
    simp only [List.mem_cons, List.mem_singleton, List.not_mem_nil, or_false] at hw
    rcases hw with rfl | rfl | rfl | rfl
    · exact hk.2
    · exact hu.2
    · exact hs.2
    · exact hm.2

theorem jsonLoop_samples (fadd : Str → Str → Except Err FloatObs) (size : Nat)
    (xs : List Sample) (k : Nat) (out : Str)
    (hw : ∀ x ∈ xs, isWord x.utime ∧ isWord x.stime ∧ isWord x.memory)
    (hc : ∀ x ∈ xs, ∃ f, fadd x.utime x.stime = .ok f ∧ strFl f = .ok x.cpu)
    (hsz : size < 2 ^ 64) (hk : k + xs.length = size + 1) :
    jsonLoop fadd size (samplesFrom k xs) out
      = .ok (out ++ joinWith (B ",\n") (triplesFrom k xs)) := by
  induction xs generalizing k out with
  | nil => simp [samplesFrom, triplesFrom, jsonLoop, joinWith]
  | cons x rest ih =>
    obtain ⟨hu, hs, hm⟩ := hw x (by simp)
    obtain ⟨f, hf, hcpu⟩ := hc x (by simp)
    have hw2 : ∀ y ∈ rest, isWord y.utime ∧ isWord y.stime ∧ isWord y.memory :=
      fun y hy => hw y (by simp [hy])
    have hc2 : ∀ y ∈ rest, ∃ f, fadd y.utime y.stime = .ok f ∧ strFl f = .ok y.cpu :=
      fun y hy => hc y (by simp [hy])
    simp only [List.length_cons] at hk
    have hst : stoul (to_string (k : Int)) = .ok k := stoul_to_string k (by omega)
    have hmod : size % 2 ^ 64 = size := Nat.mod_eq_of_lt hsz
    rw [samplesFrom, jsonLoop, split_sampleLine k x hu hs hm]
    simp only [List.getD_cons_zero, List.getD_cons_succ]
    rw [hf]
    dsimp only
    rw [hcpu]
    dsimp only
    rw [hst]
    dsimp only
    rw [hmod]
    cases rest with
    | nil =>
      simp only [List.length_nil] at hk
      have hks : k = size := by omega
      rw [if_neg (by simp [hks])]
      simp [samplesFrom, triplesFrom, jsonLoop, joinWith, tripleLine]
    | cons y rest2 =>
      simp only [List.length_cons] at hk
      have hks : k ≠ size := by omega
      rw [if_pos hks, ih (k + 1) _ hw2 hc2 (by simp only [List.length_cons]; omega)]
      simp [triplesFrom, joinWith, tripleLine, List.append_assoc]

theorem triplesFrom_length (k : Nat) (xs : List Sample) :
    (triplesFrom k xs).length = xs.length := by
  induction xs generalizing k with
  | nil => rfl
  | cons x xs ih => simp [triplesFrom, ih]

/-- C13. For a sample list of `n` entries `k u s m` with the elapsed-seconds
values 1, ..., `n` in order, whose fields are words and for which the sum
`stof(u) + stof(s)` and `strFl` of it give the text `c`, `json` returns `,\r\n`
followed by the `n` triples `          [k, c, m]` in the order of the
samples, with `,\n` between two triples and nothing after the last one,
followed by `\n`. Without chart generation `html2` puts the placeholder `\r\n`
in the place of this text; with it, the text that `json` returns. -/
theorem json_triples (fadd : Str → Str → Except Err FloatObs) (xs : List Sample)
    (hw : ∀ x ∈ xs, isWord x.utime ∧ isWord x.stime ∧ isWord x.memory)
    (hc : ∀ x ∈ xs, ∃ f, fadd x.utime x.stime = .ok f ∧ strFl f = .ok x.cpu)
    (hn : xs.length < 2 ^ 64) :
    json fadd (samplesFrom 1 xs)
        = .ok (B ",\r\n" ++ joinWith (B ",\n") (triplesFrom 1 xs) ++ B "\n")
      ∧ (triplesFrom 1 xs).length = xs.length
      ∧ (∀ (pid : Int) (polls : List Poll) (st st1 : ChildState) (stats : Str)
          (values : List Str),
          getStats pid polls st = .ok (stats, values, st1) →
            html2 fadd pid polls st false = .ok (html2Block stats (B "\r\n"), st1)
            ∧ ∀ jsonStr, json fadd values = .ok jsonStr →
                html2 fadd pid polls st true = .ok (html2Block stats jsonStr, st1)) := by
  have hlen : (samplesFrom 1 xs).length = xs.length := by
    generalize 1 = k
    induction xs generalizing k with
    | nil => rfl
    | cons x xs ih =>
      simp only [samplesFrom, List.length_cons]
      rw [ih (fun y hy => hw y (by simp [hy])) (fun y hy => hc y (by simp [hy]))
        (by simp only [List.length_cons] at hn; omega)]
  refine ⟨?_, triplesFrom_length 1 xs, ?_⟩
  · unfold json
    rw [hlen, jsonLoop_samples fadd xs.length xs 1 _ hw hc hn (by omega)]
  · intro pid polls st st1 stats values hg
    refine ⟨?_, fun jsonStr hj => ?_⟩
    · unfold html2
      rw [hg]
      simp
    · unfold html2
      rw [hg]
      simp [hj]

set_option maxRecDepth 100000 in
/-- The sample list `1 0.01 0 1234`, `2 1.23 0.12 1300` gives the two triples
`[1, 0.01, 1234]` and `[2, 1.35, 1300]`. -/
theorem json_triples_witness :
    json faddDemo [B "1 0.01 0 1234", B "2 1.23 0.12 1300"]
      = .ok (B ",\r\n          [1, 0.01, 1234],\n          [2, 1.35, 1300]\n") := by
  have h := (json_triples faddDemo
    [{ utime := B "0.01", stime := B "0", memory := B "1234", cpu := B "0.01" },
      { utime := B "1.23", stime := B "0.12", memory := B "1300", cpu := B "1.35" }]
    (by
      intro x hx
      simp only [List.mem_cons, List.mem_singleton, List.not_mem_nil, or_false] at hx
      rcases hx with rfl | rfl <;>
        exact ⟨⟨by decide, by decide⟩, ⟨by decide, by decide⟩, ⟨by decide, by decide⟩⟩)
    (by
      intro x hx
      simp only [List.mem_cons, List.mem_singleton, List.not_mem_nil, or_false] at hx
      rcases hx with rfl | rfl
      · exact ⟨{ isZero := false, text := B "0.010000" }, by decide, by decide⟩
      · exact ⟨{ isZero := false, text := B "1.350000" }, by decide, by decide⟩)
    (by decide)).1
  have e1 : samplesFrom 1
      [{ utime := B "0.01", stime := B "0", memory := B "1234", cpu := B "0.01" },
        { utime := B "1.23", stime := B "0.12", memory := B "1300", cpu := B "1.35" }]
      = [B "1 0.01 0 1234", B "2 1.23 0.12 1300"] := by decide
  have e2 : B ",\r\n" ++ joinWith (B ",\n") (triplesFrom 1
      [{ utime := B "0.01", stime := B "0", memory := B "1234", cpu := B "0.01" },
        { utime := B "1.23", stime := B "0.12", memory := B "1300", cpu := B "1.35" }])
        ++ B "\n"
      = B ",\r\n          [1, 0.01, 1234],\n          [2, 1.35, 1300]\n" := by decide
  rw [e1, e2] at h
  exact h

/-! ## C14: the size that `html2` declares and the carriage returns -/

theorem substr_mem (s : Str) (p l : Nat) (r : Str) (h : substr s p l = .ok r) :
    ∀ b ∈ r, b ∈ s := by
  unfold substr at h
  split at h
  · cases h
  · have e : r = (s.drop p).take l := (Except.ok.inj h).symm
    intro b hb
    rw [e] at hb
    exact List.mem_of_mem_drop (List.mem_of_mem_take hb)

theorem strFl_mem (fl : FloatObs) (c : Str) (h : strFl fl = .ok c) :
    ∀ b ∈ c, b ∈ fl.text ∨ b = 48 := by
  unfold strFl at h
  split at h
  · have e : c = B "0" := (Except.ok.inj h).symm
    intro b hb
    rw [e] at hb
    right
    simpa [B] using hb
  · dsimp only at h
    cases h1 : substr fl.text 0 (szAdd (find fl.text (B ".") 0) 3) with
    | error e =>
      rw [h1] at h
      cases h
    | ok form =>
      rw [h1] at h
      dsimp only at h
      have hform := substr_mem _ _ _ _ h1
      cases h2 : substr form (szSub form.length 1) npos with
      | error e =>
        rw [h2] at h
        cases h
      | ok last =>
        rw [h2] at h
        dsimp only at h
        split at h
        · intro b hb
          left
          exact hform b (substr_mem _ _ _ _ h b hb)
        · have e : c = form := (Except.ok.inj h).symm
          intro b hb
          rw [e] at hb
          left
          exact hform b hb

theorem splitAux_nospace (s cur : Str) (hcur : ∀ b ∈ cur, isspace b = false) :
    ∀ w ∈ splitAux s cur, ∀ b ∈ w, isspace b = false := by
  induction s generalizing cur with
  | nil =>
    unfold splitAux
    split
    · simp
    · intro w hw
      simp only [List.mem_singleton] at hw
      rw [hw]
      exact hcur
  | cons c cs ih =>
    unfold splitAux
    split
    · split
      · exact ih [] (by simp)
      · intro w hw
        rcases List.mem_cons.mp hw with h | h
        · rw [h]
          exact hcur
        · exact ih [] (by simp) w h
    · rename_i hc
      apply ih
      intro b hb
      rcases List.mem_append.mp hb with h | h
      · exact hcur b h
      · simp only [List.mem_singleton] at h
        rw [h]
        simpa using hc

theorem getD_split_noCR (line : Str) (i : Nat) : 13 ∉ (split line).getD i [] := by
  intro h
  have hs : isspace 13 = true := by decide
  by_cases hi : i < (split line).length
  · rw [List.getD_eq_getElem _ _ hi] at h
    have hm : (split line)[i] ∈ split line := List.getElem_mem _
    have := splitAux_nospace line [] (by simp) _ hm 13 h
    rw [hs] at this
    cases this
  · rw [List.getD_eq_default _ _ (by omega)] at h
    simp at h

theorem count_B_noCR :
    List.count 13 (B "          [") = 0 ∧ List.count 13 (B ", ") = 0
      ∧ List.count 13 (B "]") = 0 ∧ List.count 13 (B ",\n") = 0
      ∧ List.count 13 (B ",\r\n") = 1 ∧ List.count 13 (B "\n") = 0
      ∧ List.count 13 (B "\r\n") = 1 := by
  decide

theorem jsonLoop_count (fadd : Str → Str → Except Err FloatObs) (size : Nat)
    (values : List Str) (out r : Str)
    (hf : ∀ u s f, fadd u s = .ok f → 13 ∉ f.text)
    (h : jsonLoop fadd size values out = .ok r) :
    List.count 13 r = List.count 13 out := by
  induction values generalizing out with
  | nil =>
    unfold jsonLoop at h
    rw [← Except.ok.inj h]
  | cons line rest ih =>
    obtain ⟨c1, c2, c3, c4, _, _, _⟩ := count_B_noCR
    rw [jsonLoop] at h
    dsimp only at h
    cases h1 : fadd ((split line).getD 1 []) ((split line).getD 2 []) with
    | error e =>
      rw [h1] at h
      cases h
    | ok f =>
      rw [h1] at h
      dsimp only at h
      cases h2 : strFl f with
      | error e =>
        rw [h2] at h
        cases h
      | ok cpu =>
        rw [h2] at h
        dsimp only at h
        cases h3 : stoul ((split line).getD 0 []) with
        | error e =>
          rw [h3] at h
          cases h
        | ok t =>
          rw [h3] at h
          dsimp only at h
          have hcpu : List.count 13 cpu = 0 := by
            rw [List.count_eq_zero]
            intro hm
            rcases strFl_mem f cpu h2 13 hm with h4 | h4
            · exact hf _ _ f h1 h4
            · omega
          have ht : List.count 13 ((split line).getD 0 []) = 0 :=
            List.count_eq_zero.mpr (getD_split_noCR line 0)
          have hm : List.count 13 ((split line).getD 3 []) = 0 :=
            List.count_eq_zero.mpr (getD_split_noCR line 3)
          rw [ih _ h]
          split <;> simp only [List.count_append, c1, c2, c3, c4, hcpu, ht, hm] <;> omega

theorem json_count (fadd : Str → Str → Except Err FloatObs) (values : List Str) (r : Str)
    (hf : ∀ u s f, fadd u s = .ok f → 13 ∉ f.text)
    (h : json fadd values = .ok r) : newLineCount r = 1 := by
  obtain ⟨_, _, _, _, c5, c6, _⟩ := count_B_noCR
  unfold json at h
  cases h1 : jsonLoop fadd values.length values (B ",\r\n") with
  | error e =>
    rw [h1] at h
    cases h
  | ok out =>
    rw [h1] at h
    dsimp only at h
    rw [← Except.ok.inj h]
    unfold newLineCount
    rw [List.count_append, jsonLoop_count fadd _ _ _ _ hf h1, c5, c6]

set_option maxRecDepth 100000 in
theorem html2_const_counts :
    newLineCount html2First = 3 ∧ newLineCount html2Middle = 8 ∧ newLineCount html2Last = 5 := by
  decide

/-- C14. For every statistics string, every sample list and both values of
`genChart`, when the chart portion `jsonStr` is the placeholder `\r\n` or the
text that `json` returns (the texts of `float` values holding no `\r`), the
three constant parts and the chart portion hold 17 bytes `\r`, the block
holds 17 more than the statistics rows do, the subtraction
`html2.size() - 17 - newLineCount(statistics)` does not wrap around, and the
size that `html2` writes in front of the block is the length of the block
minus the number of its bytes `\r`. -/
theorem html2Size_counts (fadd : Str → Str → Except Err FloatObs) (statistics : Str)
    (values : List Str) (genChart : Bool) (jsonStr : Str)
    (hf : ∀ u s f, fadd u s = .ok f → 13 ∉ f.text)
    (hj : (if genChart = false then Except.ok (B "\r\n") else json fadd values) = .ok jsonStr)
    (hlen : (html2Body statistics jsonStr).length < 2 ^ 64) :
    newLineCount html2First + newLineCount html2Middle + newLineCount jsonStr
        + newLineCount html2Last = 17
      ∧ newLineCount (html2Body statistics jsonStr) = 17 + newLineCount statistics
      ∧ 17 + newLineCount statistics ≤ (html2Body statistics jsonStr).length
      ∧ html2Size statistics jsonStr
        = (html2Body statistics jsonStr).length - newLineCount (html2Body statistics jsonStr)
      ∧ html2Block statistics jsonStr
        = toHex ((html2Body statistics jsonStr).length
              - newLineCount (html2Body statistics jsonStr))
            ++ B "\r\n" ++ html2Body statistics jsonStr ++ B "\r\n" := by
  obtain ⟨k1, k2, k3⟩ := html2_const_counts
  have hjc : newLineCount jsonStr = 1 := by
    by_cases hg : genChart = false
    · rw [if_pos hg] at hj
      rw [← Except.ok.inj hj]
      decide
    · rw [if_neg hg] at hj
      exact json_count fadd values jsonStr hf hj
  have hb : newLineCount (html2Body statistics jsonStr) = 17 + newLineCount statistics := by
    unfold newLineCount at k1 k2 k3 hjc ⊢
    unfold html2Body
    simp only [List.count_append, k1, k2, k3, hjc]
    omega
  have hs := html2Size_eq statistics jsonStr hlen
  have hsz : html2Size statistics jsonStr
      = (html2Body statistics jsonStr).length
        - newLineCount (html2Body statistics jsonStr) := by
    omega
  refine ⟨by omega, hb, by omega, hsz, ?_⟩
  unfold html2Block
  rw [hsz]

theorem faddDemo_noCR (u s : Str) (f : FloatObs) (h : faddDemo u s = .ok f) : 13 ∉ f.text := by
  unfold faddDemo at h
  split at h
  · rw [← Except.ok.inj h]
    decide
  · split at h
    · rw [← Except.ok.inj h]
      decide
    · cases h

set_option maxRecDepth 100000 in
/-- For the two table rows of the seconds 1 and 2 and the chart data of their
samples, the block holds 19 bytes `\r`, and `html2` declares its length minus
19. -/
theorem html2Size_counts_witness :
    json faddDemo [B "1 0.01 0 1234", B "2 1.23 0.12 1300"]
        = .ok (B ",\r\n          [1, 0.01, 1234],\n          [2, 1.35, 1300]\n")
      ∧ newLineCount (html2Body
          (statRow 1 (B "0.01") (B "0") 1234 ++ statRow 2 (B "1.23") (B "0.12") 1300)
          (B ",\r\n          [1, 0.01, 1234],\n          [2, 1.35, 1300]\n")) = 17 + 2
      ∧ html2Size
          (statRow 1 (B "0.01") (B "0") 1234 ++ statRow 2 (B "1.23") (B "0.12") 1300)
          (B ",\r\n          [1, 0.01, 1234],\n          [2, 1.35, 1300]\n")
        = (html2Body
          (statRow 1 (B "0.01") (B "0") 1234 ++ statRow 2 (B "1.23") (B "0.12") 1300)
          (B ",\r\n          [1, 0.01, 1234],\n          [2, 1.35, 1300]\n")).length - (17 + 2) := by
  have hj : json faddDemo [B "1 0.01 0 1234", B "2 1.23 0.12 1300"]
      = .ok (B ",\r\n          [1, 0.01, 1234],\n          [2, 1.35, 1300]\n") := by decide
  have h := html2Size_counts faddDemo
    (statRow 1 (B "0.01") (B "0") 1234 ++ statRow 2 (B "1.23") (B "0.12") 1300)
    [B "1 0.01 0 1234", B "2 1.23 0.12 1300"] true
    (B ",\r\n          [1, 0.01, 1234],\n          [2, 1.35, 1300]\n")
    faddDemo_noCR hj (by decide)
  have hs : newLineCount
      (statRow 1 (B "0.01") (B "0") 1234 ++ statRow 2 (B "1.23") (B "0.12") 1300) = 2 := by
    decide
  obtain ⟨_, h2, _, h4, _⟩ := h
  rw [hs] at h2
  rw [h2] at h4
  exact ⟨hj, h2, h4⟩

/-! ## Further properties of the parser and of `send404` -/

/-- A string without `%` and without `+` is returned unchanged by
`url_decode`. -/
theorem url_decode_unchanged (s : Str) (h1 : 37 ∉ s) (h2 : 43 ∉ s) :
    url_decode s = .ok s := by
  induction s with
  | nil => rfl
  | cons c s ih =>
    have hc1 : c ≠ 37 := fun h => h1 (by simp [h])
    have hc2 : c ≠ 43 := fun h => h2 (by simp [h])
    have hs1 : 37 ∉ s := fun h => h1 (by simp [h])
    have hs2 : 43 ∉ s := fun h => h2 (by simp [h])
    rw [url_decode_plain c s hc1 hc2, ih hs1 hs2]
    rfl

/-- The string `hello, world!` is returned unchanged by `url_decode`. -/
theorem url_decode_unchanged_witness : url_decode (B "hello, world!") = .ok (B "hello, world!") :=
  url_decode_unchanged (B "hello, world!") (by decide) (by decide)

/-- A request line without a space gives the empty path. -/
theorem getFilePath_no_space (req : Str) (h : 32 ∉ req) : getFilePath req = .ok [] := by
  unfold getFilePath findChar
  simp [h]

/-- The request line `GET` gives the empty path. -/
theorem getFilePath_no_space_witness : getFilePath (B "GET") = .ok [] :=
  getFilePath_no_space (B "GET") (by decide)

/-- The response of `send404` starts with the status line
`HTTP/1.1 404 Not Found`, and after its headers it holds one chunk, whose size
line is the exact length of the message naming the path, followed by the
terminating chunk `0\r\n\r\n`. -/
theorem send404_response (path : Str) :
    ∃ body, send404 path
        = B "HTTP/1.1 404 Not Found\r\n" ++ B "Content-Type: text/plain\r\n"
          ++ B "Transfer-Encoding: chunked\r\n" ++ B "Connection: Close\r\n\r\n" ++ body
      ∧ readChunk body
        = some (B "The following file was not found: " ++ path, B "0\r\n\r\n") := by
  refine ⟨toHex (B "The following file was not found: " ++ path).length ++ B "\r\n"
      ++ (B "The following file was not found: " ++ path) ++ B "\r\n" ++ B "0\r\n\r\n", ?_, ?_⟩
  · simp [send404, List.append_assoc]
  · exact readChunk_frame _ _ _ rfl

end Hw7
